import Mathlib

/-!
# Verification of the lowpolycars world-streaming core

Shallow embedding of the road-segment streamer (`src/roadManager.js`), the
traffic simulator (`src/trafficManager.js`), the player locomotion state
machine (`src/playerController.js`) and the camera follow controller
(`cameraController.js`) of the lowpolycars repository, together with proofs
and refutations of the specified properties.

JavaScript numbers are modelled as rationals (`ℚ`): every finite IEEE double
is a rational and all arithmetic appearing in the modelled code paths is
exact on the inputs considered.  Scene-graph handles, shadows, rotations used
only for rendering, and async model loading are abstracted away; where a
random draw feeds the logic it is passed in explicitly as an oracle argument.
-/

namespace Road

/-- `this.visibleSegments` (roadManager.js line 9): the fixed visible-segment
budget of the streamer. -/
def visibleSegments : ℕ := 30

/-- `Math.floor(this.visibleSegments * 0.7)` (roadManager.js lines 84 and
132): the number of segments kept ahead of the player. -/
def segmentsForward (n : ℕ) : ℕ := Nat.floor ((n : ℚ) * (7 / 10))

/-- `this.visibleSegments - segmentsForward` (lines 85 and 133): the number of
segments kept behind the player. -/
def segmentsBackward (n : ℕ) : ℕ := n - segmentsForward n

/-- The loop `for (let i = 0; i < n; i++) { frontmostZ -= L; add(frontmostZ) }`
(roadManager.js lines 166-169) run with the mutable cursor starting at
`front`: pushes `front - L, front - 2L, …, front - nL` in order. -/
def pushFwd (L : ℚ) (front : ℚ) : ℕ → List ℚ
  | 0 => []
  | n + 1 => (front - L) :: pushFwd L (front - L) n

/-- The loop `for (let i = 0; i < n; i++) { backmostZ += L; add(backmostZ) }`
(roadManager.js lines 182-185) run with the cursor starting at `back`. -/
def pushBwd (L : ℚ) (back : ℚ) : ℕ → List ℚ
  | 0 => []
  | n + 1 => (back + L) :: pushBwd L (back + L) n

/-- Exact iteration count of the road-extension while loops below: with step
`L > 0` a cursor starting at distance `d` from the bound crosses it after
`⌈d / L⌉` iterations. -/
def extendSteps (L d : ℚ) : ℕ :=
  if 0 < L then (⌈d / L⌉).toNat else 0

/-- Fuelled body of the loop `while (frontmostZ > targetForwardZ)
{ frontmostZ -= L; add(frontmostZ) }` (roadManager.js lines 159-162); the
guard is re-checked every iteration, so any sufficient fuel yields the loop's
exact behaviour. -/
def extendFwdAux (L tf : ℚ) : ℕ → ℚ → List ℚ
  | 0, _ => []
  | n + 1, front =>
    if 0 < L ∧ tf < front then (front - L) :: extendFwdAux L tf n (front - L) else []

/-- The loop `while (frontmostZ > targetForwardZ) { frontmostZ -= L;
add(frontmostZ) }` (roadManager.js lines 159-162), run with exactly the fuel
it needs (see `extendFwd_eq` for the loop's defining equation).  The `0 < L`
conjunct is a termination guard: with `L ≤ 0` the JavaScript loop would not
terminate, and the model returns `[]`; the modelled code only reaches this
loop with the positive bounding-box length `L`. -/
def extendFwd (L tf front : ℚ) : List ℚ :=
  extendFwdAux L tf (extendSteps L (front - tf)) front

/-- Fuelled body of the loop `while (backmostZ < targetBackwardZ)
{ backmostZ += L; add(backmostZ) }` (roadManager.js lines 175-178). -/
def extendBwdAux (L tb : ℚ) : ℕ → ℚ → List ℚ
  | 0, _ => []
  | n + 1, back =>
    if 0 < L ∧ back < tb then (back + L) :: extendBwdAux L tb n (back + L) else []

/-- The loop `while (backmostZ < targetBackwardZ) { backmostZ += L;
add(backmostZ) }` (roadManager.js lines 175-178), with the same `0 < L`
termination guard (see `extendBwd_eq`). -/
def extendBwd (L tb back : ℚ) : List ℚ :=
  extendBwdAux L tb (extendSteps L (tb - back)) back

theorem extendSteps_pos (L d : ℚ) (hL : 0 < L) (hd : 0 < d) :
    0 < extendSteps L d := by
  have h2 : (0 : ℤ) < ⌈d / L⌉ := Int.ceil_pos.2 (div_pos hd hL)
  rw [extendSteps, if_pos hL]
  omega

theorem extendSteps_succ (L d : ℚ) (hL : 0 < L) (hd : 0 < d) :
    extendSteps L d = extendSteps L (d - L) + 1 := by
  have h1 : (d - L) / L = d / L - 1 := by field_simp
  have h2 : (0 : ℤ) < ⌈d / L⌉ := Int.ceil_pos.2 (div_pos hd hL)
  rw [extendSteps, extendSteps, if_pos hL, if_pos hL, h1, Int.ceil_sub_one]
  omega

/-- `extendFwd` satisfies the defining equation of the source's while loop:
one guarded iteration, then the same loop again. -/
theorem extendFwd_eq (L tf front : ℚ) :
    extendFwd L tf front =
      if 0 < L ∧ tf < front then (front - L) :: extendFwd L tf (front - L) else [] := by
  by_cases hg : 0 < L ∧ tf < front
  · rw [if_pos hg]
    have hd : 0 < front - tf := by linarith [hg.2]
    have hs : extendSteps L (front - tf) = extendSteps L (front - L - tf) + 1 := by
      have he : front - tf - L = front - L - tf := by ring
      rw [extendSteps_succ L (front - tf) hg.1 hd, he]
    rw [extendFwd, hs, extendFwdAux, if_pos hg]
    rfl
  · rw [if_neg hg, extendFwd]
    cases h0 : extendSteps L (front - tf) with
    | zero => rfl
    | succ n => rw [extendFwdAux, if_neg hg]

/-- `extendBwd` satisfies the defining equation of the source's while loop. -/
theorem extendBwd_eq (L tb back : ℚ) :
    extendBwd L tb back =
      if 0 < L ∧ back < tb then (back + L) :: extendBwd L tb (back + L) else [] := by
  by_cases hg : 0 < L ∧ back < tb
  · rw [if_pos hg]
    have hd : 0 < tb - back := by linarith [hg.2]
    have hs : extendSteps L (tb - back) = extendSteps L (tb - (back + L)) + 1 := by
      have he : tb - back - L = tb - (back + L) := by ring
      rw [extendSteps_succ L (tb - back) hg.1 hd, he]
    rw [extendBwd, hs, extendBwdAux, if_pos hg]
    rfl
  · rw [if_neg hg, extendBwd]
    cases h0 : extendSteps L (tb - back) with
    | zero => rfl
    | succ n => rw [extendBwdAux, if_neg hg]

/-- One step of the stable descending insertion sort modelling
`this.roadSegments.sort((a, b) => b.position - a.position)` (roadManager.js
line 154): walk past strictly greater elements, insert before the first
element `≤ a`.  On the duplicate-free lists arising here every correct
descending sort agrees with this one. -/
def insertDesc (a : ℚ) : List ℚ → List ℚ
  | [] => [a]
  | b :: t => if a < b then b :: insertDesc a t else a :: b :: t

/-- Stable descending sort (see `insertDesc`). -/
def sortDesc : List ℚ → List ℚ
  | [] => []
  | a :: t => insertDesc a (sortDesc t)

/-- `updateRoadSegments()` (roadManager.js lines 125-187), the spec's
`resync`, acting on the list of segment positions.  The guard models line
126 (`if (this.actualSegmentLength === 0) return`).  The local
`currentSegmentIndex` of line 129 is computed by the source but never used,
so it is omitted here. -/
def updateRoadSegments (L : ℚ) (n : ℕ) (z : ℚ) (segs : List ℚ) : List ℚ :=
  if L = 0 then segs
  else
    let sf := segmentsForward n
    let sb := n - sf
    let targetForwardZ := z - (sf : ℚ) * L
    let targetBackwardZ := z + (sb : ℚ) * L
    -- lines 140-144: shift from the array head while its position > targetBackwardZ
    let s1 := segs.dropWhile (fun p => decide (p > targetBackwardZ))
    -- lines 147-151: pop from the array tail while its position < targetForwardZ
    let s2 := (s1.reverse.dropWhile (fun p => decide (p < targetForwardZ))).reverse
    -- line 154: sort descending by position
    let s3 := sortDesc s2
    -- lines 157-170: extend forward from the frontmost (last) element, or seed
    let s4 := if s3.isEmpty then pushFwd L z sf
              else s3 ++ extendFwd L targetForwardZ (s3.getLastD 0)
    -- lines 173-186: extend backward from the backmost (head) element, or seed
    let s5 := if s4.isEmpty then pushBwd L z sb
              else s4 ++ extendBwd L targetBackwardZ (s4.headD 0)
    s5

/-- `createInitialRoad()` (roadManager.js lines 75-98): seed positions
`0, -L, …, -(sf-1)·L` then `L, …, sb·L`; no-op when the segment length is
still `0` (line 77). -/
def createInitialRoad (L : ℚ) (n : ℕ) : List ℚ :=
  if L = 0 then []
  else (List.range (segmentsForward n)).map (fun i => -(i : ℚ) * L)
       ++ (List.range (segmentsBackward n)).map (fun i => ((i : ℚ) + 1) * L)

/-- The streamer state owned by `RoadManager`: the segment positions, the
stored reference position `playerZPosition`, and the computed segment length
`actualSegmentLength`. -/
structure State where
  segments : List ℚ
  playerZPosition : ℚ
  actualSegmentLength : ℚ
  deriving DecidableEq

/-- `update()` / `updateRoadSegments()` at state level. -/
def State.update (s : State) : State :=
  { s with segments :=
      updateRoadSegments s.actualSegmentLength visibleSegments s.playerZPosition s.segments }

/-- `reset()` (roadManager.js lines 245-257): drop all segments, set
`playerZPosition` to `0`, recreate the initial window. -/
def State.reset (s : State) : State :=
  { segments := createInitialRoad s.actualSegmentLength visibleSegments
    playerZPosition := 0
    actualSegmentLength := s.actualSegmentLength }

/-- The spec's claimed segment-list invariant: the list is a contiguous run
of positions spaced exactly `L` apart, ordered by position descending, with
no gaps and no duplicates, i.e. each element is the next plus `L`. -/
def chainDesc (L : ℚ) (l : List ℚ) : Prop :=
  List.Chain' (fun a b => a = b + L) l

/-- Folding a sequence of `resync` calls over the streamer's initial (empty)
segment list. -/
def resyncRun (L : ℚ) (zs : List ℚ) : List ℚ :=
  zs.foldl (fun segs z => updateRoadSegments L visibleSegments z segs) []

/-- Executable check for `chainDesc`. -/
def chainDescB (L : ℚ) : List ℚ → Bool
  | [] => true
  | [_] => true
  | a :: b :: t => decide (a = b + L) && chainDescB L (b :: t)

theorem chainDesc_iff (L : ℚ) (l : List ℚ) : chainDesc L l ↔ chainDescB L l = true := by
  induction l with
  | nil => simp [chainDesc, chainDescB]
  | cons a t ih =>
    cases t with
    | nil => simp [chainDesc, chainDescB]
    | cons b t' =>
      rw [chainDesc] at ih ⊢
      rw [List.chain'_cons, chainDescB, Bool.and_eq_true, decide_eq_true_eq, ih]

end Road

namespace Road

unseal Rat.add Rat.sub Rat.mul Rat.inv Rat.ofScientific in
/-- **C4** (confirmed).  With `visibleSegments = 30` and segment length
`L = 18.5`, the initial resync at reference position `0` (starting from the
empty segment list) produces exactly 21 segments ahead of the player
(negative `z`) and 9 behind (positive `z`), and the positions are exactly
`{−21·18.5, …, 9·18.5}` in steps of `18.5`. -/
theorem initial_resync_window :
    ((updateRoadSegments (18.5 : ℚ) visibleSegments 0 []).filter
        (fun p => decide (p < 0))).length = 21 ∧
    ((updateRoadSegments (18.5 : ℚ) visibleSegments 0 []).filter
        (fun p => decide (0 < p))).length = 9 ∧
    sortDesc (updateRoadSegments (18.5 : ℚ) visibleSegments 0 []) =
      (List.range 31).map (fun i => ((9 : ℚ) - i) * 18.5) := by
  refine ⟨?_, ?_, ?_⟩ <;> decide

/-- **C8** (confirmed).  If the segment length is `0` (road asset not yet
loaded), `updateRoadSegments` leaves the whole streamer state unchanged. -/
theorem resync_noop_of_length_zero (s : State) (h : s.actualSegmentLength = 0) :
    s.update = s := by
  cases s with
  | mk segments playerZPosition actualSegmentLength =>
    simp only [State.update, updateRoadSegments]
    subst h
    simp

/-- Witness for `resync_noop_of_length_zero` at a concrete state. -/
theorem resync_noop_of_length_zero_witness :
    (State.mk [5, 3] 7 0).update = State.mk [5, 3] 7 0 :=
  resync_noop_of_length_zero (State.mk [5, 3] 7 0) rfl

/-- **C10** (confirmed).  `reset()` always sets the stored reference position
to `0`, replaces the whole segment list by the initial window created by
`createInitialRoad` (which is seeded around position `0`), and its result is
independent of the player position stored before the call. -/
theorem reset_reseeds_at_zero (s : State) :
    s.reset.playerZPosition = 0 ∧
    s.reset.segments = createInitialRoad s.actualSegmentLength visibleSegments ∧
    ∀ p : ℚ, ({ s with playerZPosition := p } : State).reset = s.reset :=
  ⟨rfl, rfl, fun _ => rfl⟩

end Road

namespace Road

set_option maxRecDepth 8000 in
unseal Rat.add Rat.sub Rat.mul Rat.inv Rat.ofScientific in
/-- **C1** (corrected): counterexample.  With fixed segment length `L = 1`
and the monotonically decreasing reference positions `3.5, 0, -0.2, -0.7`
(the player always advances toward negative `z`), the claimed invariant
fails: already the first resync from the empty list leaves the list out of
descending order, and at the end of the fourth resync the positions do not
form a contiguous `L`-spaced run even after sorting (position `8.5` is
missing while `9.5` and `7.5` are present). -/
theorem segment_invariant_counterexample :
    ((7 : ℚ)/2 > 0 ∧ (0 : ℚ) > -1/5 ∧ (-1/5 : ℚ) > -7/10) ∧
    ¬ chainDesc 1 (resyncRun 1 [0]) ∧
    ¬ chainDesc 1 (resyncRun 1 [7/2, 0, -1/5, -7/10]) ∧
    ¬ chainDesc 1 (sortDesc (resyncRun 1 [7/2, 0, -1/5, -7/10])) := by
  refine ⟨by decide, ?_, ?_, ?_⟩ <;> rw [chainDesc_iff] <;> decide

/-- Descending sortedness (non-strict). -/
def SortedD (l : List ℚ) : Prop := l.Pairwise (fun x y => y ≤ x)

theorem mem_insertDesc {x a : ℚ} {l : List ℚ} :
    x ∈ insertDesc a l ↔ x = a ∨ x ∈ l := by
  induction l with
  | nil => simp [insertDesc]
  | cons b t ih =>
    rw [insertDesc]
    by_cases h : a < b
    · rw [if_pos h]
      simp only [List.mem_cons, ih]
      tauto
    · rw [if_neg h]
      simp only [List.mem_cons]

theorem insertDesc_perm (a : ℚ) (l : List ℚ) : (insertDesc a l).Perm (a :: l) := by
  induction l with
  | nil => simp [insertDesc]
  | cons b t ih =>
    rw [insertDesc]
    by_cases h : a < b
    · rw [if_pos h]
      exact (ih.cons b).trans (List.Perm.swap a b t)
    · rw [if_neg h]

theorem insertDesc_sorted {a : ℚ} {l : List ℚ} (hs : SortedD l) :
    SortedD (insertDesc a l) := by
  induction l with
  | nil => simp [insertDesc, SortedD]
  | cons b t ih =>
    have hs' := List.pairwise_cons.1 hs
    rw [insertDesc]
    by_cases h : a < b
    · rw [if_pos h]
      refine List.pairwise_cons.2 ⟨fun y hy => ?_, ih hs'.2⟩
      rcases mem_insertDesc.1 hy with rfl | hy
      · exact le_of_lt h
      · exact hs'.1 y hy
    · rw [if_neg h]
      refine List.pairwise_cons.2 ⟨fun y hy => ?_, hs⟩
      rcases List.mem_cons.1 hy with rfl | hy
      · exact le_of_not_lt h
      · exact le_trans (hs'.1 y hy) (le_of_not_lt h)

theorem sortDesc_perm (l : List ℚ) : (sortDesc l).Perm l := by
  induction l with
  | nil => simp [sortDesc]
  | cons a t ih =>
    rw [sortDesc]
    exact (insertDesc_perm a (sortDesc t)).trans (ih.cons a)

theorem sortDesc_sorted (l : List ℚ) : SortedD (sortDesc l) := by
  induction l with
  | nil => simp [sortDesc, SortedD]
  | cons a t ih =>
    rw [sortDesc]
    exact insertDesc_sorted ih

theorem getLastD_mem {l : List ℚ} (h : l ≠ []) (d : ℚ) : l.getLastD d ∈ l := by
  induction l generalizing d with
  | nil => exact absurd rfl h
  | cons a t ih =>
    cases t with
    | nil => simp [List.getLastD]
    | cons b t' =>
      rw [List.getLastD_cons]
      exact List.mem_cons_of_mem a (ih (by simp) a)

/-- In a sorted-descending list the head bounds every element from above. -/
theorem sortedD_le_head {a : ℚ} {t : List ℚ} (hs : SortedD (a :: t)) :
    ∀ y ∈ a :: t, y ≤ a := by
  rw [SortedD, List.pairwise_cons] at hs
  intro y hy
  rcases List.mem_cons.1 hy with rfl | hy
  · exact le_rfl
  · exact hs.1 y hy

/-- In a sorted-descending list the last element bounds every element from
below. -/
theorem sortedD_getLastD_le {l : List ℚ} (hs : SortedD l) (d : ℚ) :
    ∀ y ∈ l, l.getLastD d ≤ y := by
  induction l generalizing d with
  | nil => intro y hy; cases hy
  | cons a t ih =>
    have hs' := List.pairwise_cons.1 hs
    intro y hy
    cases t with
    | nil =>
      rcases List.mem_cons.1 hy with rfl | hy
      · simp [List.getLastD]
      · cases hy
    | cons b t' =>
      rw [List.getLastD_cons]
      have hb : (b :: t').getLastD a ≤ b := ih hs'.2 a b (List.mem_cons_self b t')
      rcases List.mem_cons.1 hy with rfl | hy
      · exact le_trans hb (hs'.1 b (List.mem_cons_self b t'))
      · exact ih hs'.2 a y hy

end Road

namespace Road

theorem headD_mem {l : List ℚ} (h : l ≠ []) (d : ℚ) : l.headD d ∈ l := by
  cases l with
  | nil => exact absurd rfl h
  | cons a t => exact List.mem_cons_self a t

theorem pushFwd_mem_le {L : ℚ} (hL : 0 < L) :
    ∀ (k : ℕ) (front : ℚ), ∀ x ∈ pushFwd L front k, x ≤ front - L := by
  intro k
  induction k with
  | zero => intro front x hx; cases hx
  | succ m ih =>
    intro front x hx
    rcases List.mem_cons.1 hx with rfl | hx
    · exact le_rfl
    · have := ih (front - L) x hx
      linarith

theorem pushFwd_pairwise {L : ℚ} (hL : 0 < L) (k : ℕ) (front : ℚ) :
    (pushFwd L front k).Pairwise (fun x y => y < x) := by
  induction k generalizing front with
  | zero => simp [pushFwd]
  | succ m ih =>
    rw [pushFwd]
    refine List.pairwise_cons.2 ⟨fun y hy => ?_, ih (front - L)⟩
    have := pushFwd_mem_le hL m (front - L) y hy
    linarith

theorem pushFwd_getLastD {L : ℚ} (k : ℕ) (front : ℚ) :
    (pushFwd L front k).getLastD front = front - (k : ℚ) * L := by
  induction k generalizing front with
  | zero => simp [pushFwd]
  | succ m ih =>
    rw [pushFwd, List.getLastD_cons, ih (front - L)]
    push_cast
    ring

theorem pushFwd_ne_nil {L front : ℚ} {k : ℕ} (hk : k ≠ 0) :
    pushFwd L front k ≠ [] := by
  cases k with
  | zero => exact absurd rfl hk
  | succ m => simp [pushFwd]

theorem extendFwdAux_mem {L tf : ℚ} :
    ∀ (fuel : ℕ) (front : ℚ), ∀ x ∈ extendFwdAux L tf fuel front, x ≤ front - L := by
  intro fuel
  induction fuel with
  | zero => intro front x hx; cases hx
  | succ m ih =>
    intro front x hx
    rw [extendFwdAux] at hx
    by_cases hg : 0 < L ∧ tf < front
    · rw [if_pos hg] at hx
      rcases List.mem_cons.1 hx with rfl | hx
      · exact le_rfl
      · have := ih (front - L) x hx
        linarith [hg.1]
    · rw [if_neg hg] at hx
      cases hx

theorem extendFwdAux_pairwise {L tf : ℚ} (fuel : ℕ) (front : ℚ) :
    (extendFwdAux L tf fuel front).Pairwise (fun x y => y < x) := by
  induction fuel generalizing front with
  | zero => simp [extendFwdAux]
  | succ m ih =>
    rw [extendFwdAux]
    by_cases hg : 0 < L ∧ tf < front
    · rw [if_pos hg]
      refine List.pairwise_cons.2 ⟨fun y hy => ?_, ih (front - L)⟩
      have := extendFwdAux_mem m (front - L) y hy
      linarith [hg.1]
    · rw [if_neg hg]
      simp

theorem extendFwd_mem {L tf front : ℚ} : ∀ x ∈ extendFwd L tf front, x ≤ front - L :=
  extendFwdAux_mem _ front

theorem extendFwd_pairwise (L tf front : ℚ) :
    (extendFwd L tf front).Pairwise (fun x y => y < x) :=
  extendFwdAux_pairwise _ front

theorem extendFwd_getLastD_le {L tf : ℚ} (hL : 0 < L) :
    ∀ (n : ℕ) (front : ℚ), extendSteps L (front - tf) ≤ n →
      (extendFwd L tf front).getLastD front ≤ tf := by
  intro n
  induction n with
  | zero =>
    intro front hsteps
    have hle : front ≤ tf := by
      by_contra hcon
      have : 0 < extendSteps L (front - tf) :=
        extendSteps_pos L (front - tf) hL (by linarith [lt_of_not_le hcon])
      omega
    have hg : ¬ (0 < L ∧ tf < front) := fun hg => absurd hle (not_le.2 hg.2)
    rw [extendFwd_eq, if_neg hg]
    exact hle
  | succ m ih =>
    intro front hsteps
    by_cases hg : 0 < L ∧ tf < front
    · rw [extendFwd_eq, if_pos hg, List.getLastD_cons]
      refine ih (front - L) ?_
      have he : front - tf - L = front - L - tf := by ring
      have := extendSteps_succ L (front - tf) hL (by linarith [hg.2])
      rw [he] at this
      omega
    · rw [extendFwd_eq, if_neg hg]
      rcases not_and_or.1 hg with h | h
      · exact absurd hL h
      · exact le_of_not_lt h

theorem extendFwd_last_le {L tf : ℚ} (hL : 0 < L) (front : ℚ) :
    (extendFwd L tf front).getLastD front ≤ tf :=
  extendFwd_getLastD_le hL (extendSteps L (front - tf)) front le_rfl

/-- If the forward-extension loop did not run at all, its guard already
failed, so the cursor was at or beyond the bound. -/
theorem extendFwd_nil {L tf front : ℚ} (hL : 0 < L)
    (h : extendFwd L tf front = []) : front ≤ tf := by
  by_contra hcon
  have hg : 0 < L ∧ tf < front := ⟨hL, lt_of_not_le hcon⟩
  rw [extendFwd_eq, if_pos hg] at h
  cases h

theorem extendBwdAux_mem {L tb : ℚ} :
    ∀ (fuel : ℕ) (back : ℚ), ∀ x ∈ extendBwdAux L tb fuel back, back + L ≤ x := by
  intro fuel
  induction fuel with
  | zero => intro back x hx; cases hx
  | succ m ih =>
    intro back x hx
    rw [extendBwdAux] at hx
    by_cases hg : 0 < L ∧ back < tb
    · rw [if_pos hg] at hx
      rcases List.mem_cons.1 hx with rfl | hx
      · exact le_rfl
      · have := ih (back + L) x hx
        linarith [hg.1]
    · rw [if_neg hg] at hx
      cases hx

theorem extendBwdAux_pairwise {L tb : ℚ} (fuel : ℕ) (back : ℚ) :
    (extendBwdAux L tb fuel back).Pairwise (fun x y => x < y) := by
  induction fuel generalizing back with
  | zero => simp [extendBwdAux]
  | succ m ih =>
    rw [extendBwdAux]
    by_cases hg : 0 < L ∧ back < tb
    · rw [if_pos hg]
      refine List.pairwise_cons.2 ⟨fun y hy => ?_, ih (back + L)⟩
      have := extendBwdAux_mem m (back + L) y hy
      linarith [hg.1]
    · rw [if_neg hg]
      simp

theorem extendBwd_mem {L tb back : ℚ} : ∀ x ∈ extendBwd L tb back, back + L ≤ x :=
  extendBwdAux_mem _ back

theorem extendBwd_pairwise (L tb back : ℚ) :
    (extendBwd L tb back).Pairwise (fun x y => x < y) :=
  extendBwdAux_pairwise _ back

theorem extendBwd_getLastD_ge {L tb : ℚ} (hL : 0 < L) :
    ∀ (n : ℕ) (back : ℚ), extendSteps L (tb - back) ≤ n →
      tb ≤ (extendBwd L tb back).getLastD back := by
  intro n
  induction n with
  | zero =>
    intro back hsteps
    have hle : tb ≤ back := by
      by_contra hcon
      have : 0 < extendSteps L (tb - back) :=
        extendSteps_pos L (tb - back) hL (by linarith [lt_of_not_le hcon])
      omega
    have hg : ¬ (0 < L ∧ back < tb) := fun hg => absurd hle (not_le.2 hg.2)
    rw [extendBwd_eq, if_neg hg]
    exact hle
  | succ m ih =>
    intro back hsteps
    by_cases hg : 0 < L ∧ back < tb
    · rw [extendBwd_eq, if_pos hg, List.getLastD_cons]
      refine ih (back + L) ?_
      have he : tb - back - L = tb - (back + L) := by ring
      have := extendSteps_succ L (tb - back) hL (by linarith [hg.2])
      rw [he] at this
      omega
    · rw [extendBwd_eq, if_neg hg]
      rcases not_and_or.1 hg with h | h
      · exact absurd hL h
      · exact le_of_not_lt h

theorem extendBwd_last_ge {L tb : ℚ} (hL : 0 < L) (back : ℚ) :
    tb ≤ (extendBwd L tb back).getLastD back :=
  extendBwd_getLastD_ge hL (extendSteps L (tb - back)) back le_rfl

theorem extendBwd_nil {L tb back : ℚ} (hL : 0 < L)
    (h : extendBwd L tb back = []) : tb ≤ back := by
  by_contra hcon
  have hg : 0 < L ∧ back < tb := ⟨hL, lt_of_not_le hcon⟩
  rw [extendBwd_eq, if_pos hg] at h
  cases h

/-- A strictly monotone (in either sense) list has no duplicates. -/
theorem pairwise_lt_nodup {l : List ℚ} (h : l.Pairwise (fun x y => y < x)) :
    l.Nodup :=
  h.imp fun hxy => ne_of_gt hxy

theorem pairwise_gt_nodup {l : List ℚ} (h : l.Pairwise (fun x y => x < y)) :
    l.Nodup :=
  h.imp fun hxy => ne_of_lt hxy

end Road

namespace Road

/-- Core single-resync guarantees: with a positive segment length and a
duplicate-free list, a resync keeps the list duplicate-free, reaches at least
`segmentsForward·L` ahead of the reference position (toward negative `z`) and
at least `segmentsBackward·L` behind it (toward positive `z`). -/
theorem updateRoadSegments_spec (L : ℚ) (hL : 0 < L) (n : ℕ)
    (hn : segmentsForward n ≠ 0) (z : ℚ) (segs : List ℚ) (hnd : segs.Nodup) :
    (updateRoadSegments L n z segs).Nodup ∧
    (∃ p ∈ updateRoadSegments L n z segs, p ≤ z - (segmentsForward n : ℚ) * L) ∧
    (∃ q ∈ updateRoadSegments L n z segs, z + ((n - segmentsForward n : ℕ) : ℚ) * L ≤ q) := by
  have h0 : ¬ (L = 0) := ne_of_gt hL
  set sf := segmentsForward n with hsf
  set tf := z - (sf : ℚ) * L with htf
  set tb := z + ((n - sf : ℕ) : ℚ) * L with htb
  set s1 := segs.dropWhile (fun p => decide (p > tb)) with hs1
  set s2 := (s1.reverse.dropWhile (fun p => decide (p < tf))).reverse with hs2
  set s3 := sortDesc s2 with hs3
  set s4 := if s3.isEmpty then pushFwd L z sf
            else s3 ++ extendFwd L tf (s3.getLastD 0) with hs4
  set s5 := if s4.isEmpty then pushBwd L z (n - sf)
            else s4 ++ extendBwd L tb (s4.headD 0) with hs5
  have hupd : updateRoadSegments L n z segs = s5 := by
    rw [updateRoadSegments, if_neg h0]
  rw [hupd]
  -- stages 1-3: removals and the sort keep the list duplicate-free
  have hnd1 : s1.Nodup := (List.dropWhile_sublist _).nodup hnd
  have hsub2 : s2.Sublist s1 := by
    rw [hs2]
    refine List.reverse_sublist.1 ?_
    rw [List.reverse_reverse]
    exact List.dropWhile_sublist _
  have hnd2 : s2.Nodup := hsub2.nodup hnd1
  have hnd3 : s3.Nodup := (sortDesc_perm s2).symm.nodup hnd2
  have hsorted3 : SortedD s3 := sortDesc_sorted s2
  -- stage 4: forward extension or forward seed
  have h4 : s4.Nodup ∧ s4 ≠ [] ∧ (∀ y ∈ s4, y ≤ s4.headD 0) ∧ (∃ p ∈ s4, p ≤ tf) := by
    by_cases h3e : s3.isEmpty
    · have h4v : s4 = pushFwd L z sf := by rw [hs4, if_pos h3e]
      obtain ⟨m, hm⟩ : ∃ m, sf = m + 1 := by
        rcases Nat.exists_eq_succ_of_ne_zero hn with ⟨m, hm⟩
        exact ⟨m, hm⟩
      have hne : s4 ≠ [] := by rw [h4v]; exact pushFwd_ne_nil (by omega)
      have hhead : s4.headD 0 = z - L := by rw [h4v, hm, pushFwd]; rfl
      refine ⟨?_, hne, ?_, ?_⟩
      · rw [h4v]; exact pairwise_lt_nodup (pushFwd_pairwise hL sf z)
      · intro y hy
        rw [hhead]
        exact pushFwd_mem_le hL sf z y (h4v ▸ hy)
      · refine ⟨(pushFwd L z sf).getLastD z, ?_, ?_⟩
        · rw [h4v]; exact getLastD_mem (pushFwd_ne_nil (by omega)) z
        · rw [pushFwd_getLastD, htf]
    · have hne3 : s3 ≠ [] := by
        intro hnil
        rw [hs3] at hnil
        exact h3e (by rw [hs3, hnil]; rfl)
      obtain ⟨a, t, h3v⟩ := List.exists_cons_of_ne_nil hne3
      have h4v : s4 = s3 ++ extendFwd L tf (s3.getLastD 0) := by
        rw [hs4, if_neg h3e]
      set front := s3.getLastD 0 with hfront
      have hfrontmem : front ∈ s3 := getLastD_mem (by rw [h3v]; simp) 0
      have hfrontle : ∀ y ∈ s3, front ≤ y := sortedD_getLastD_le hsorted3 0
      have hheadle : ∀ y ∈ s3, y ≤ a := by
        intro y hy
        exact sortedD_le_head (h3v ▸ hsorted3) y (h3v ▸ hy)
      have hextlt : ∀ x ∈ extendFwd L tf front, x < front := by
        intro x hx
        have := extendFwd_mem x hx
        linarith
      refine ⟨?_, ?_, ?_, ?_⟩
      · rw [h4v]
        refine hnd3.append (pairwise_lt_nodup (extendFwd_pairwise L tf front)) ?_
        intro x hx3 hxe
        exact absurd (hfrontle x hx3) (not_le.2 (hextlt x hxe))
      · rw [h4v, h3v]; simp
      · intro y hy
        have hhead : s4.headD 0 = a := by rw [h4v, h3v]; rfl
        rw [hhead]
        rcases List.mem_append.1 (h4v ▸ hy) with hy3 | hye
        · exact hheadle y hy3
        · exact le_trans (le_of_lt (hextlt y hye)) (le_trans (hfrontle front hfrontmem)
            (hheadle front hfrontmem))
      · by_cases hee : extendFwd L tf front = []
        · exact ⟨front, by rw [h4v]; exact List.mem_append_left _ hfrontmem,
            extendFwd_nil hL hee⟩
        · refine ⟨(extendFwd L tf front).getLastD front, ?_, ?_⟩
          · rw [h4v]
            exact List.mem_append_right _ (getLastD_mem hee front)
          · exact extendFwd_last_le hL front
  obtain ⟨hnd4, hne4, hmax4, hex4⟩ := h4
  -- stage 5: backward extension from the maximal element
  have h4e : ¬ (s4.isEmpty = true) := by
    rw [List.isEmpty_iff]
    exact hne4
  have h5v : s5 = s4 ++ extendBwd L tb (s4.headD 0) := by rw [hs5, if_neg h4e]
  set b := s4.headD 0 with hb
  have hbmem : b ∈ s4 := headD_mem hne4 0
  have hextgt : ∀ x ∈ extendBwd L tb b, b < x := by
    intro x hx
    have := extendBwd_mem x hx
    linarith
  have hnd5 : s5.Nodup := by
    rw [h5v]
    refine hnd4.append (pairwise_gt_nodup (extendBwd_pairwise L tb b)) ?_
    intro x hx4 hxe
    exact absurd (hmax4 x hx4) (not_le.2 (hextgt x hxe))
  refine ⟨hnd5, ?_, ?_⟩
  · obtain ⟨p, hp, hple⟩ := hex4
    exact ⟨p, by rw [h5v]; exact List.mem_append_left _ hp, hple⟩
  · by_cases hee : extendBwd L tb b = []
    · exact ⟨b, by rw [h5v]; exact List.mem_append_left _ hbmem, extendBwd_nil hL hee⟩
    · refine ⟨(extendBwd L tb b).getLastD b, ?_, extendBwd_last_ge hL b⟩
      rw [h5v]
      exact List.mem_append_right _ (getLastD_mem hee b)

theorem segmentsForward_30 : segmentsForward 30 = 21 := by
  rw [segmentsForward]
  norm_num

theorem resyncRun_nodup (L : ℚ) (hL : 0 < L) (zs : List ℚ) : (resyncRun L zs).Nodup := by
  suffices h : ∀ (zs : List ℚ) (segs : List ℚ), segs.Nodup →
      (zs.foldl (fun segs z => updateRoadSegments L visibleSegments z segs) segs).Nodup by
    exact h zs [] List.nodup_nil
  intro zs
  induction zs with
  | nil => intro segs h; exact h
  | cons w ws ih =>
    intro segs h
    refine ih _ ?_
    refine (updateRoadSegments_spec L hL visibleSegments ?_ w segs h).1
    rw [visibleSegments, segmentsForward_30]
    omega

/-- **C1** (corrected): the amended guarantee.  For every sequence of resync
calls from the streamer's empty initial list with a fixed segment length
`L > 0`, at the end of every resync the segment positions are pairwise
distinct, some segment reaches at least `21·L` ahead of the reference
position (at or below `z − 21L`) and some segment reaches at least `9·L`
behind it (at or above `z + 9L`).  The stated contiguity and descending
order do not hold in general (see `segment_invariant_counterexample`). -/
theorem segment_window_guarantees (L : ℚ) (hL : 0 < L) (zs : List ℚ) (z : ℚ) :
    (updateRoadSegments L visibleSegments z (resyncRun L zs)).Nodup ∧
    (∃ p ∈ updateRoadSegments L visibleSegments z (resyncRun L zs), p ≤ z - 21 * L) ∧
    (∃ q ∈ updateRoadSegments L visibleSegments z (resyncRun L zs), z + 9 * L ≤ q) := by
  have hsf : segmentsForward visibleSegments = 21 := segmentsForward_30
  have h := updateRoadSegments_spec L hL visibleSegments (by rw [hsf]; omega) z
    (resyncRun L zs) (resyncRun_nodup L hL zs)
  rw [hsf] at h
  norm_num at h
  exact h

/-- Witness for `segment_window_guarantees` at `L = 1`, an empty prefix of
calls and reference position `0`. -/
theorem segment_window_guarantees_witness :
    (0 : ℚ) < 1 ∧
    ((updateRoadSegments 1 visibleSegments 0 (resyncRun 1 [])).Nodup ∧
     (∃ p ∈ updateRoadSegments 1 visibleSegments 0 (resyncRun 1 []), p ≤ 0 - 21 * 1) ∧
     (∃ q ∈ updateRoadSegments 1 visibleSegments 0 (resyncRun 1 []), 0 + 9 * 1 ≤ q)) :=
  ⟨by norm_num, segment_window_guarantees 1 (by norm_num) [] 0⟩

end Road

namespace Traffic

/-- Traffic direction group: `'incoming'` (oncoming) or `'outgoing'` (same
direction as the player). -/
inductive Dir where
  | incoming
  | outgoing
  deriving DecidableEq

/-- A live traffic agent: its lane, longitudinal position (`model.position.z`),
speed and direction group (trafficManager.js lines 256-261 and 273-278).  The
purely cosmetic fields (rotation, random scale, the renderable handle) do not
feed back into the simulation logic and are omitted. -/
structure Car where
  lane : ℕ
  z : ℚ
  speed : ℚ
  dir : Dir
  deriving DecidableEq

/-- Per-direction configuration (trafficManager.js lines 39-58).  The
`speedVariation` field is never read by the simulation logic and is
omitted. -/
structure Config where
  spawnDistance : ℚ
  despawnDistance : ℚ
  speed : ℚ
  density : ℚ
  minSpawnInterval : ℚ
  maxSpawnInterval : ℚ

/-- `this.incomingConfig` (lines 39-47). -/
def incomingConfig : Config :=
  { spawnDistance := 400, despawnDistance := 500, speed := 6/5,
    density := 6/10, minSpawnInterval := 3/10, maxSpawnInterval := 2 }

/-- `this.outgoingConfig` (lines 50-58). -/
def outgoingConfig : Config :=
  { spawnDistance := 400, despawnDistance := 500, speed := 6/5,
    density := 6/10, minSpawnInterval := 1/2, maxSpawnInterval := 5/2 }

def dirConfig : Dir → Config
  | .incoming => incomingConfig
  | .outgoing => outgoingConfig

/-- `this.incomingLanes = [0, 1]` (line 34). -/
def incomingLanes : List ℕ := [0, 1]

/-- `this.outgoingLanes = [2, 3]` (line 35). -/
def outgoingLanes : List ℕ := [2, 3]

def dirLanes : Dir → List ℕ
  | .incoming => incomingLanes
  | .outgoing => outgoingLanes

/-- `maxCarsPerDirection = 30` (line 144). -/
def maxCarsPerDirection : ℕ := 30

/-- `safeDistance = 10` (line 207). -/
def safeDistance : ℚ := 10

/-- `currentCarsInDirection` (line 145): live population of a direction
group. -/
def carsInDir (d : Dir) (cars : List Car) : ℕ :=
  (cars.filter (fun c => decide (c.dir = d))).length

/-- The `distance` computed in the eviction scan (lines 159 and 182):
`playerZPosition - car.z` for incoming (largest for the car farthest ahead of
the player, i.e. most negative `z`), `car.z - playerZPosition` for outgoing
(largest for the car farthest behind the player, i.e. most positive `z`). -/
def awayDist (pz : ℚ) (d : Dir) (c : Car) : ℚ :=
  match d with
  | .incoming => pz - c.z
  | .outgoing => c.z - pz

/-- One step of the eviction scan (lines 155-165 / 178-188): remember the
first index attaining the strictly greatest `awayDist` among same-direction
cars.  `none` models the initial `farthestCarIndex = -1` /
`farthestDistance = -Infinity`. -/
def scanStep (pz : ℚ) (d : Dir) (best : Option (ℕ × ℚ)) (ic : ℕ × Car) :
    Option (ℕ × ℚ) :=
  if ic.2.dir = d then
    match best with
    | none => some (ic.1, awayDist pz d ic.2)
    | some (j, bd) =>
      if bd < awayDist pz d ic.2 then some (ic.1, awayDist pz d ic.2) else some (j, bd)
  else best

/-- The full eviction scan over the indexed car array. -/
def farthestIndex (pz : ℚ) (d : Dir) (cars : List Car) : Option (ℕ × ℚ) :=
  cars.enum.foldl (scanStep pz d) none

/-- The candidate lanes left after the per-lane safety check
(lines 208-223): the direction's lanes minus every lane of a same-direction
car within `safeDistance` of the spawn point; the source removes those lanes
from `availableLanes` one near car at a time, which yields exactly this
filter and preserves lane order. -/
def availableLanes (pz : ℚ) (d : Dir) (cars : List Car) : List ℕ :=
  (dirLanes d).filter (fun lane =>
    !(cars.any (fun c =>
        decide (c.dir = d) &&
        decide (|c.z - (pz - (dirConfig d).spawnDistance)| < safeDistance) &&
        decide (c.lane = lane))))

/-- The random draws and asset-availability facts consumed by one
`spawnTrafficCar` call. -/
structure SpawnOracle where
  /-- `Object.keys(this.carModels).length !== 0` (line 141). -/
  anyLoaded : Bool
  /-- `Math.floor(Math.random() * availableLanes.length)` (line 228), reduced
  modulo the length so that any natural models an in-range draw. -/
  laneChoice : ℕ
  /-- whether `this.carModels[modelType]` for the randomly selected type is
  already loaded (line 234); the selected type itself is irrelevant beyond
  this. -/
  chosenLoaded : Bool

/-- The capacity handling of `spawnTrafficCar` (lines 147-197): when the
direction's live population has reached `maxCarsPerDirection`, remove the
same-direction car found by the eviction scan (the first index with the
greatest `awayDist`). -/
def evictIfAtCap (pz : ℚ) (d : Dir) (cars : List Car) : List Car :=
  if maxCarsPerDirection ≤ carsInDir d cars then
    match farthestIndex pz d cars with
    | some ib => cars.eraseIdx ib.1
    | none => cars
  else cars

/-- `spawnTrafficCar(playerZPosition, direction)` (lines 139-287).  In order:
no-op when no models are loaded (line 141); capacity eviction (lines
147-197); abort if the direction has no configured lanes (line 203, never
the case here) or no safe lane is available (line 225); abort if the chosen
model is not loaded (line 234); otherwise append the new agent at
`playerZPosition - spawnDistance` with the configured speed (both direction
branches, lines 245-279, place and push identically up to cosmetic
rotation). -/
def spawnTrafficCar (pz : ℚ) (d : Dir) (o : SpawnOracle) (cars : List Car) :
    List Car :=
  if o.anyLoaded = false then cars
  else
    let cars1 := evictIfAtCap pz d cars
    if (dirLanes d).isEmpty then cars1
    else
      let avail := availableLanes pz d cars1
      if avail.isEmpty then cars1
      else
        let laneIndex := avail.getD (o.laneChoice % avail.length) 0
        if o.chosenLoaded = false then cars1
        else
          cars1 ++ [{ lane := laneIndex, z := pz - (dirConfig d).spawnDistance,
                      speed := (dirConfig d).speed, dir := d }]

/-- `speedScaleFactor = 0.3` (line 291). -/
def speedScaleFactor : ℚ := 3/10

/-- Advance one car by `speed * speedScaleFactor * deltaTime * 60` toward the
player for incoming, away for outgoing (lines 294-312); the occasional random
heading wobble only touches the cosmetic rotation and is omitted. -/
def moveCar (dt : ℚ) (c : Car) : Car :=
  match c.dir with
  | .incoming => { c with z := c.z + c.speed * speedScaleFactor * dt * 60 }
  | .outgoing => { c with z := c.z - c.speed * speedScaleFactor * dt * 60 }

/-- `updateTrafficCars(deltaTime, playerZPosition)` (lines 289-320). -/
def updateTrafficCars (dt : ℚ) (cars : List Car) : List Car :=
  cars.map (moveCar dt)

/-- The removal condition of `cleanupTrafficCars` (lines 330-354). -/
def shouldDespawn (pz : ℚ) (c : Car) : Bool :=
  match c.dir with
  | .incoming => decide (pz + (dirConfig c.dir).despawnDistance < c.z)
  | .outgoing =>
      decide (pz + (dirConfig c.dir).despawnDistance < c.z) ||
      decide (c.z < pz - (dirConfig c.dir).despawnDistance * 2)

/-- `cleanupTrafficCars(playerZPosition)` (lines 322-361): the
`while (i--) … splice(i, 1)` loop walks the array from the end, examines each
car exactly once (a splice at `i` does not shift lower indices) and removes
exactly the cars satisfying `shouldDespawn`; it is this filter. -/
def cleanupTrafficCars (pz : ℚ) (cars : List Car) : List Car :=
  cars.filter (fun c => !shouldDespawn pz c)

/-- `getRandomIncomingSpawnInterval()` (lines 363-371), with the
`Math.random()` draw passed in as `r`. -/
def getRandomIncomingSpawnInterval (r : ℚ) : ℚ :=
  (incomingConfig.maxSpawnInterval -
    (incomingConfig.maxSpawnInterval - incomingConfig.minSpawnInterval) *
      incomingConfig.density) * (1/2 + r * (3/10))

/-- `getRandomOutgoingSpawnInterval()` (lines 373-382). -/
def getRandomOutgoingSpawnInterval (r : ℚ) : ℚ :=
  (outgoingConfig.maxSpawnInterval -
    (outgoingConfig.maxSpawnInterval - outgoingConfig.minSpawnInterval) *
      outgoingConfig.density) * (8/10 + r * (4/10))

/-- The mutable state owned by `TrafficManager`. -/
structure State where
  trafficCars : List Car
  lastIncomingSpawnTime : ℚ
  lastOutgoingSpawnTime : ℚ
  nextIncomingSpawnInterval : ℚ
  nextOutgoingSpawnInterval : ℚ

/-- Constructor state (lines 8 and 61-64): no cars, timers and intervals
zero. -/
def initialState : State :=
  { trafficCars := [], lastIncomingSpawnTime := 0, lastOutgoingSpawnTime := 0,
    nextIncomingSpawnInterval := 0, nextOutgoingSpawnInterval := 0 }

/-- All random draws consumed by one `update` tick. -/
structure TickOracle where
  incomingSpawn : SpawnOracle
  outgoingSpawn : SpawnOracle
  incomingRand : ℚ
  outgoingRand : ℚ

/-- `update(deltaTime, playerZPosition)` (lines 111-137): advance both spawn
timers and fire a spawn attempt for each direction whose timer reached its
interval, then advance every car, then run the despawn cleanup. -/
def update (dt pz : ℚ) (o : TickOracle) (s : State) : State :=
  let lastIn := s.lastIncomingSpawnTime + dt
  let fireIn : Bool := decide (s.nextIncomingSpawnInterval ≤ lastIn)
  let cars1 := if fireIn then spawnTrafficCar pz .incoming o.incomingSpawn s.trafficCars
               else s.trafficCars
  let lastIn1 := if fireIn then 0 else lastIn
  let nextIn1 := if fireIn then getRandomIncomingSpawnInterval o.incomingRand
                 else s.nextIncomingSpawnInterval
  let lastOut := s.lastOutgoingSpawnTime + dt
  let fireOut : Bool := decide (s.nextOutgoingSpawnInterval ≤ lastOut)
  let cars2 := if fireOut then spawnTrafficCar pz .outgoing o.outgoingSpawn cars1
               else cars1
  let lastOut1 := if fireOut then 0 else lastOut
  let nextOut1 := if fireOut then getRandomOutgoingSpawnInterval o.outgoingRand
                  else s.nextOutgoingSpawnInterval
  let cars3 := updateTrafficCars dt cars2
  let cars4 := cleanupTrafficCars pz cars3
  { trafficCars := cars4, lastIncomingSpawnTime := lastIn1,
    lastOutgoingSpawnTime := lastOut1, nextIncomingSpawnInterval := nextIn1,
    nextOutgoingSpawnInterval := nextOut1 }

/-- One tick's external inputs. -/
structure TickInput where
  dt : ℚ
  pz : ℚ
  oracle : TickOracle

/-- A run of the simulation from the constructor state. -/
def runTicks (ts : List TickInput) : State :=
  ts.foldl (fun s t => update t.dt t.pz t.oracle s) initialState

end Traffic

namespace Traffic

theorem scanStep_ndir {pz : ℚ} {d : Dir} {best : Option (ℕ × ℚ)} {q : ℕ × Car}
    (hq : ¬ q.2.dir = d) : scanStep pz d best q = best := by
  simp [scanStep, hq]

theorem scanStep_dir_none {pz : ℚ} {d : Dir} {q : ℕ × Car} (hq : q.2.dir = d) :
    scanStep pz d none q = some (q.1, awayDist pz d q.2) := by
  simp [scanStep, hq]

theorem scanStep_dir_lt {pz : ℚ} {d : Dir} {j : ℕ} {bd : ℚ} {q : ℕ × Car}
    (hq : q.2.dir = d) (hlt : bd < awayDist pz d q.2) :
    scanStep pz d (some (j, bd)) q = some (q.1, awayDist pz d q.2) := by
  simp [scanStep, hq, hlt]

theorem scanStep_dir_ge {pz : ℚ} {d : Dir} {j : ℕ} {bd : ℚ} {q : ℕ × Car}
    (hq : q.2.dir = d) (hlt : ¬ bd < awayDist pz d q.2) :
    scanStep pz d (some (j, bd)) q = some (j, bd) := by
  simp [scanStep, hq, hlt]

theorem scan_result (pz : ℚ) (d : Dir) :
    ∀ (l : List (ℕ × Car)) (best : Option (ℕ × ℚ)),
      l.foldl (scanStep pz d) best = best ∨
      ∃ p ∈ l, p.2.dir = d ∧
        l.foldl (scanStep pz d) best = some (p.1, awayDist pz d p.2) := by
  intro l
  induction l with
  | nil => intro best; exact Or.inl rfl
  | cons q rest ih =>
    intro best
    rw [List.foldl_cons]
    rcases ih (scanStep pz d best q) with h | ⟨p, hp, hpd, hpe⟩
    · rw [h]
      by_cases hq : q.2.dir = d
      · rcases hbest : best with _ | ⟨j, bd⟩
        · exact Or.inr ⟨q, List.mem_cons_self q rest, hq, scanStep_dir_none hq⟩
        · by_cases hlt : bd < awayDist pz d q.2
          · exact Or.inr ⟨q, List.mem_cons_self q rest, hq, scanStep_dir_lt hq hlt⟩
          · exact Or.inl (scanStep_dir_ge hq hlt)
      · exact Or.inl (scanStep_ndir hq)
    · exact Or.inr ⟨p, List.mem_cons_of_mem q hp, hpd, hpe⟩

theorem scanStep_isSome (pz : ℚ) (d : Dir) (best : Option (ℕ × ℚ)) (q : ℕ × Car)
    (h : best.isSome) : (scanStep pz d best q).isSome := by
  by_cases hq : q.2.dir = d
  · rcases best with _ | ⟨j, bd⟩
    · rw [scanStep_dir_none hq]; rfl
    · by_cases hlt : bd < awayDist pz d q.2
      · rw [scanStep_dir_lt hq hlt]; rfl
      · rw [scanStep_dir_ge hq hlt]; rfl
  · rw [scanStep_ndir hq]
    exact h

theorem scan_isSome (pz : ℚ) (d : Dir) :
    ∀ (l : List (ℕ × Car)) (best : Option (ℕ × ℚ)),
      best.isSome → (l.foldl (scanStep pz d) best).isSome := by
  intro l
  induction l with
  | nil => intro best h; exact h
  | cons q rest ih =>
    intro best h
    rw [List.foldl_cons]
    exact ih _ (scanStep_isSome pz d best q h)

theorem scan_some_of_mem (pz : ℚ) (d : Dir) :
    ∀ (l : List (ℕ × Car)) (best : Option (ℕ × ℚ)),
      (∃ p ∈ l, p.2.dir = d) → (l.foldl (scanStep pz d) best).isSome := by
  intro l
  induction l with
  | nil => intro best ⟨p, hp, _⟩; cases hp
  | cons q rest ih =>
    intro best ⟨p, hp, hpd⟩
    rw [List.foldl_cons]
    rcases List.mem_cons.1 hp with rfl | hp
    · refine scan_isSome pz d rest _ ?_
      rcases best with _ | ⟨j, bd⟩
      · rw [scanStep_dir_none hpd]; rfl
      · by_cases hlt : bd < awayDist pz d p.2
        · rw [scanStep_dir_lt hpd hlt]; rfl
        · rw [scanStep_dir_ge hpd hlt]; rfl
    · exact ih _ ⟨p, hp, hpd⟩

theorem scan_max (pz : ℚ) (d : Dir) :
    ∀ (l : List (ℕ × Car)) (best : Option (ℕ × ℚ)) (j : ℕ) (bd : ℚ),
      l.foldl (scanStep pz d) best = some (j, bd) →
      (∀ p ∈ l, p.2.dir = d → awayDist pz d p.2 ≤ bd) ∧
      (∀ j0 bd0, best = some (j0, bd0) → bd0 ≤ bd) := by
  intro l
  induction l with
  | nil =>
    intro best j bd h
    refine ⟨fun p hp => absurd hp (List.not_mem_nil p), fun j0 bd0 h0 => ?_⟩
    rw [List.foldl_nil] at h
    rw [h0] at h
    cases h
    exact le_rfl
  | cons q rest ih =>
    intro best j bd h
    rw [List.foldl_cons] at h
    obtain ⟨hrest, hstep⟩ := ih (scanStep pz d best q) j bd h
    have hq_le : q.2.dir = d → awayDist pz d q.2 ≤ bd := by
      intro hq
      rcases hbest : best with _ | ⟨j0, bd0⟩
      · exact hstep q.1 (awayDist pz d q.2) (by rw [hbest, scanStep_dir_none hq])
      · by_cases hlt : bd0 < awayDist pz d q.2
        · exact hstep q.1 (awayDist pz d q.2) (by rw [hbest, scanStep_dir_lt hq hlt])
        · exact le_trans (le_of_not_lt hlt)
            (hstep j0 bd0 (by rw [hbest, scanStep_dir_ge hq hlt]))
    refine ⟨fun p hp hpd => ?_, fun j0 bd0 h0 => ?_⟩
    · rcases List.mem_cons.1 hp with rfl | hp
      · exact hq_le hpd
      · exact hrest p hp hpd
    · by_cases hq : q.2.dir = d
      · by_cases hlt : bd0 < awayDist pz d q.2
        · exact le_trans (le_of_lt hlt) (hq_le hq)
        · exact hstep j0 bd0 (by rw [h0, scanStep_dir_ge hq hlt])
      · exact hstep j0 bd0 (by rw [scanStep_ndir hq]; exact h0)

theorem scan_mem (pz : ℚ) (d : Dir) (l : List (ℕ × Car)) (j : ℕ) (bd : ℚ)
    (h : l.foldl (scanStep pz d) none = some (j, bd)) :
    ∃ p ∈ l, p.1 = j ∧ p.2.dir = d ∧ bd = awayDist pz d p.2 := by
  rcases scan_result pz d l none with h0 | ⟨p, hp, hpd, hpe⟩
  · rw [h0] at h; cases h
  · rw [hpe] at h
    injection h with h
    injection h with h1 h2
    exact ⟨p, hp, h1, hpd, h2.symm⟩

/-- The eviction scan returns the index of a same-direction car whose
`awayDist` is maximal among all same-direction cars. -/
theorem farthestIndex_spec (pz : ℚ) (d : Dir) (cars : List Car) (j : ℕ) (bd : ℚ)
    (h : farthestIndex pz d cars = some (j, bd)) :
    ∃ c, cars[j]? = some c ∧ c.dir = d ∧ bd = awayDist pz d c ∧
      ∀ c' ∈ cars, c'.dir = d → awayDist pz d c' ≤ bd := by
  obtain ⟨p, hp, hp1, hp2, hp3⟩ := scan_mem pz d cars.enum j bd h
  have hmax := (scan_max pz d cars.enum none j bd h).1
  refine ⟨p.2, ?_, hp2, hp3, fun c' hc' hcd' => ?_⟩
  · have := List.mem_enum_iff_getElem?.1 hp
    rw [hp1] at this
    exact this
  · obtain ⟨i, hi⟩ := List.getElem?_of_mem hc'
    exact hmax (i, c') (List.mem_enum_iff_getElem?.2 hi) hcd'

/-- When the direction group is non-empty the eviction scan finds a car. -/
theorem farthestIndex_some (pz : ℚ) (d : Dir) (cars : List Car)
    (h : carsInDir d cars ≠ 0) :
    ∃ j bd, farthestIndex pz d cars = some (j, bd) := by
  have hex : ∃ c ∈ cars, c.dir = d := by
    rcases hfe : cars.filter (fun c => decide (c.dir = d)) with _ | ⟨c, t⟩
    · rw [carsInDir, hfe] at h
      exact absurd rfl h
    · have hc : c ∈ cars.filter (fun c => decide (c.dir = d)) := by
        rw [hfe]; exact List.mem_cons_self c t
      have := List.mem_filter.1 hc
      exact ⟨c, this.1, of_decide_eq_true this.2⟩
  obtain ⟨c, hc, hcd⟩ := hex
  obtain ⟨i, hi⟩ := List.getElem?_of_mem hc
  have := scan_some_of_mem pz d cars.enum none
    ⟨(i, c), List.mem_enum_iff_getElem?.2 hi, hcd⟩
  rw [farthestIndex]
  rcases hr : cars.enum.foldl (scanStep pz d) none with _ | ⟨j, bd⟩
  · rw [hr] at this; cases this
  · exact ⟨j, bd, rfl⟩

theorem carsInDir_eq_countP (d : Dir) (cars : List Car) :
    carsInDir d cars = cars.countP (fun c => decide (c.dir = d)) :=
  (List.countP_eq_length_filter _ _).symm

theorem countP_eraseIdx_true {p : Car → Bool} :
    ∀ (l : List Car) (j : ℕ) (c : Car), l[j]? = some c → p c = true →
      (l.eraseIdx j).countP p + 1 = l.countP p := by
  intro l
  induction l with
  | nil => intro j c h _; cases j <;> cases h
  | cons a t ih =>
    intro j c h hp
    cases j with
    | zero =>
      rw [List.getElem?_cons_zero] at h
      injection h with h
      subst h
      rw [List.eraseIdx_cons_zero, List.countP_cons, hp]
      simp
    | succ m =>
      rw [List.getElem?_cons_succ] at h
      rw [List.eraseIdx_cons_succ, List.countP_cons, List.countP_cons,
        ← ih m c h hp]
      ring

theorem countP_eraseIdx_false {p : Car → Bool} :
    ∀ (l : List Car) (j : ℕ) (c : Car), l[j]? = some c → p c = false →
      (l.eraseIdx j).countP p = l.countP p := by
  intro l
  induction l with
  | nil => intro j c h _; cases j <;> cases h
  | cons a t ih =>
    intro j c h hp
    cases j with
    | zero =>
      rw [List.getElem?_cons_zero] at h
      injection h with h
      subst h
      rw [List.eraseIdx_cons_zero, List.countP_cons, hp]
      simp
    | succ m =>
      rw [List.getElem?_cons_succ] at h
      rw [List.eraseIdx_cons_succ, List.countP_cons, List.countP_cons,
        ih m c h hp]

theorem carsInDir_eraseIdx_of_dir {d : Dir} {cars : List Car} {j : ℕ} {c : Car}
    (h : cars[j]? = some c) (hc : c.dir = d) :
    carsInDir d (cars.eraseIdx j) + 1 = carsInDir d cars := by
  rw [carsInDir_eq_countP, carsInDir_eq_countP]
  exact countP_eraseIdx_true cars j c h (decide_eq_true hc)

theorem carsInDir_eraseIdx_le (d : Dir) (cars : List Car) (j : ℕ) :
    carsInDir d (cars.eraseIdx j) ≤ carsInDir d cars :=
  List.Sublist.length_le ((List.eraseIdx_sublist cars j).filter _)

theorem carsInDir_append_one (d : Dir) (cars : List Car) (c : Car) :
    carsInDir d (cars ++ [c]) =
      carsInDir d cars + (if c.dir = d then 1 else 0) := by
  rw [carsInDir_eq_countP, carsInDir_eq_countP, List.countP_append,
    List.countP_cons]
  simp [List.countP_nil]

theorem moveCar_dir (dt : ℚ) (c : Car) : (moveCar dt c).dir = c.dir := by
  rw [moveCar]
  cases c with
  | mk lane z speed dir => cases dir <;> rfl

theorem carsInDir_updateTrafficCars (d : Dir) (dt : ℚ) (cars : List Car) :
    carsInDir d (updateTrafficCars dt cars) = carsInDir d cars := by
  rw [carsInDir_eq_countP, carsInDir_eq_countP, updateTrafficCars,
    List.countP_map]
  refine List.countP_congr ?_
  intro c _
  simp [Function.comp, moveCar_dir]

theorem carsInDir_cleanup_le (d : Dir) (pz : ℚ) (cars : List Car) :
    carsInDir d (cleanupTrafficCars pz cars) ≤ carsInDir d cars :=
  List.Sublist.length_le ((List.filter_sublist cars).filter _)

end Traffic

namespace Traffic

theorem dirLanes_isEmpty (d : Dir) : (dirLanes d).isEmpty = false := by
  cases d <;> rfl

theorem carsInDir_evict_le (pz : ℚ) (d d' : Dir) (cars : List Car) :
    carsInDir d (evictIfAtCap pz d' cars) ≤ carsInDir d cars := by
  rw [evictIfAtCap]
  by_cases hcap : maxCarsPerDirection ≤ carsInDir d' cars
  · rw [if_pos hcap]
    rcases hfi : farthestIndex pz d' cars with _ | ⟨j, bd⟩
    · exact le_rfl
    · exact carsInDir_eraseIdx_le d cars j
  · rw [if_neg hcap]

theorem carsInDir_evict_lt (pz : ℚ) (d : Dir) (cars : List Car)
    (h : carsInDir d cars ≤ maxCarsPerDirection) :
    carsInDir d (evictIfAtCap pz d cars) < maxCarsPerDirection := by
  rw [evictIfAtCap]
  by_cases hcap : maxCarsPerDirection ≤ carsInDir d cars
  · rw [if_pos hcap]
    have hc30 : carsInDir d cars = maxCarsPerDirection := le_antisymm h hcap
    have hnz : carsInDir d cars ≠ 0 := by
      rw [hc30]
      decide
    obtain ⟨j, bd, hfi⟩ := farthestIndex_some pz d cars hnz
    obtain ⟨c, hjc, hcd, _, _⟩ := farthestIndex_spec pz d cars j bd hfi
    rw [hfi]
    show carsInDir d (cars.eraseIdx j) < maxCarsPerDirection
    have h2 : carsInDir d (cars.eraseIdx j) + 1 = maxCarsPerDirection := by
      rw [carsInDir_eraseIdx_of_dir hjc hcd, hc30]
    omega
  · rw [if_neg hcap]
    rw [maxCarsPerDirection] at h hcap ⊢
    omega

/-- A spawn attempt either leaves the list as produced by the capacity
handling, leaves it untouched, or appends one car of the spawn direction to
the capacity-handled list. -/
theorem spawn_cases (pz : ℚ) (d : Dir) (o : SpawnOracle) (cars : List Car) :
    spawnTrafficCar pz d o cars = cars ∨
    spawnTrafficCar pz d o cars = evictIfAtCap pz d cars ∨
    ∃ c : Car, c.dir = d ∧
      spawnTrafficCar pz d o cars = evictIfAtCap pz d cars ++ [c] := by
  rw [spawnTrafficCar]
  by_cases hload : o.anyLoaded = false
  · rw [if_pos hload]
    exact Or.inl rfl
  rw [if_neg hload]
  simp only [dirLanes_isEmpty, Bool.false_eq_true, if_false]
  by_cases hav : (availableLanes pz d (evictIfAtCap pz d cars)).isEmpty
  · rw [if_pos hav]
    exact Or.inr (Or.inl rfl)
  rw [if_neg hav]
  by_cases hch : o.chosenLoaded = false
  · rw [if_pos hch]
    exact Or.inr (Or.inl rfl)
  · rw [if_neg hch]
    exact Or.inr (Or.inr ⟨_, rfl, rfl⟩)

theorem carsInDir_spawn_le (pz : ℚ) (d d' : Dir) (o : SpawnOracle)
    (cars : List Car) (h : ∀ e : Dir, carsInDir e cars ≤ maxCarsPerDirection) :
    carsInDir d (spawnTrafficCar pz d' o cars) ≤ maxCarsPerDirection := by
  rcases spawn_cases pz d' o cars with hc | hc | ⟨c, hcd, hc⟩
  · rw [hc]; exact h d
  · rw [hc]; exact le_trans (carsInDir_evict_le pz d d' cars) (h d)
  · rw [hc, carsInDir_append_one]
    by_cases hdd : d' = d
    · subst hdd
      rw [if_pos hcd]
      have := carsInDir_evict_lt pz d' cars (h d')
      omega
    · rw [if_neg (fun he => hdd (hcd ▸ he))]
      simpa using le_trans (carsInDir_evict_le pz d d' cars) (h d)

/-- One tick keeps both direction populations within the cap. -/
theorem update_count_le (dt pz : ℚ) (o : TickOracle) (s : State)
    (h : ∀ e : Dir, carsInDir e s.trafficCars ≤ maxCarsPerDirection) :
    ∀ d : Dir, carsInDir d (update dt pz o s).trafficCars ≤ maxCarsPerDirection := by
  intro d
  rw [update]
  simp only
  refine le_trans (carsInDir_cleanup_le d pz _) ?_
  rw [carsInDir_updateTrafficCars]
  have h1 : ∀ e : Dir,
      carsInDir e (if decide (s.nextIncomingSpawnInterval ≤ s.lastIncomingSpawnTime + dt)
        then spawnTrafficCar pz .incoming o.incomingSpawn s.trafficCars
        else s.trafficCars) ≤ maxCarsPerDirection := by
    intro e
    by_cases hf : decide (s.nextIncomingSpawnInterval ≤ s.lastIncomingSpawnTime + dt) = true
    · rw [if_pos hf]
      exact carsInDir_spawn_le pz e .incoming o.incomingSpawn s.trafficCars h
    · rw [if_neg hf]
      exact h e
  by_cases hg : decide (s.nextOutgoingSpawnInterval ≤ s.lastOutgoingSpawnTime + dt) = true
  · rw [if_pos hg]
    exact carsInDir_spawn_le pz d .outgoing o.outgoingSpawn _ h1
  · rw [if_neg hg]
    exact h1 d

/-- **C2** (confirmed).  For every sequence of ticks — any time steps,
reference positions and random draws — and each direction group, the live
population of that direction is at most the cap (30 per direction) at the
end of every tick. -/
theorem traffic_population_bound (ts : List TickInput) (d : Dir) :
    carsInDir d (runTicks ts).trafficCars ≤ maxCarsPerDirection := by
  suffices h : ∀ (ts : List TickInput) (s : State),
      (∀ e : Dir, carsInDir e s.trafficCars ≤ maxCarsPerDirection) →
      ∀ e : Dir, carsInDir e (ts.foldl (fun s t => update t.dt t.pz t.oracle s) s).trafficCars ≤
        maxCarsPerDirection by
    refine h ts initialState (fun e => ?_) d
    rw [initialState]
    exact Nat.zero_le _
  intro ts
  induction ts with
  | nil => intro s h e; exact h e
  | cons t rest ih =>
    intro s h e
    rw [List.foldl_cons]
    exact ih (update t.dt t.pz t.oracle s) (update_count_le t.dt t.pz t.oracle s h) e

end Traffic

namespace Traffic

/-- At the cap, the capacity handling evicts exactly the first
maximal-`awayDist` car of the direction, leaving one slot free. -/
theorem evict_at_cap (pz : ℚ) (d : Dir) (cars : List Car)
    (hcap : carsInDir d cars = maxCarsPerDirection) :
    ∃ j c, cars[j]? = some c ∧ c.dir = d ∧
      (∀ c' ∈ cars, c'.dir = d → awayDist pz d c' ≤ awayDist pz d c) ∧
      evictIfAtCap pz d cars = cars.eraseIdx j ∧
      carsInDir d (cars.eraseIdx j) + 1 = maxCarsPerDirection := by
  have hnz : carsInDir d cars ≠ 0 := by
    rw [hcap]
    decide
  obtain ⟨j, bd, hfi⟩ := farthestIndex_some pz d cars hnz
  obtain ⟨c, hjc, hcd, hbd, hmax⟩ := farthestIndex_spec pz d cars j bd hfi
  refine ⟨j, c, hjc, hcd, fun c' hc' hd' => ?_, ?_, ?_⟩
  · rw [← hbd]
    exact hmax c' hc' hd'
  · rw [evictIfAtCap, if_pos (le_of_eq hcap.symm), hfi]
  · rw [carsInDir_eraseIdx_of_dir hjc hcd, hcap]

/-- With at least one model loaded, a spawn attempt is the capacity handling
followed by the safe-lane check and the model-availability check. -/
theorem spawn_eq_of_loaded (pz : ℚ) (d : Dir) (o : SpawnOracle) (cars : List Car)
    (hload : o.anyLoaded = true) :
    spawnTrafficCar pz d o cars =
      (if (availableLanes pz d (evictIfAtCap pz d cars)).isEmpty then
        evictIfAtCap pz d cars
       else if o.chosenLoaded = false then evictIfAtCap pz d cars
       else evictIfAtCap pz d cars ++
         [{ lane := (availableLanes pz d (evictIfAtCap pz d cars)).getD
              (o.laneChoice % (availableLanes pz d (evictIfAtCap pz d cars)).length) 0,
            z := pz - (dirConfig d).spawnDistance,
            speed := (dirConfig d).speed, dir := d }]) := by
  rw [spawnTrafficCar, if_neg (by simp [hload])]
  simp only [dirLanes_isEmpty, Bool.false_eq_true, if_false]

/-- **C5** (corrected): the amended theorem.  When a spawn attempt fires for
a direction at its cap (and at least one vehicle model is loaded so the
attempt proceeds), the single evicted agent is one of that direction
attaining the greatest away-distance — smallest `z` (farthest ahead) for the
oncoming group, largest `z` (farthest behind) for the same-direction group —
the result is the original population minus that agent plus at most one new
agent; and if a free lane is then found **and the chosen vehicle model is
loaded**, the population equals the cap afterwards. -/
theorem spawn_at_cap_evicts_farthest (pz : ℚ) (d : Dir) (o : SpawnOracle)
    (cars : List Car) (hcap : carsInDir d cars = maxCarsPerDirection)
    (hload : o.anyLoaded = true) :
    ∃ j c, cars[j]? = some c ∧ c.dir = d ∧
      (∀ c' ∈ cars, c'.dir = d → awayDist pz d c' ≤ awayDist pz d c) ∧
      (d = Dir.incoming → ∀ c' ∈ cars, c'.dir = d → c.z ≤ c'.z) ∧
      (d = Dir.outgoing → ∀ c' ∈ cars, c'.dir = d → c'.z ≤ c.z) ∧
      (spawnTrafficCar pz d o cars = cars.eraseIdx j ∨
        ∃ newCar : Car, newCar.dir = d ∧
          spawnTrafficCar pz d o cars = cars.eraseIdx j ++ [newCar]) ∧
      ((availableLanes pz d (cars.eraseIdx j)).isEmpty = false →
        o.chosenLoaded = true →
        carsInDir d (spawnTrafficCar pz d o cars) = maxCarsPerDirection) := by
  obtain ⟨j, c, hjc, hcd, hmax, hev, hcount⟩ := evict_at_cap pz d cars hcap
  refine ⟨j, c, hjc, hcd, hmax, ?_, ?_, ?_, ?_⟩
  · intro hd c' hc' hd'
    have := hmax c' hc' hd'
    subst hd
    rw [awayDist, awayDist] at this
    linarith
  · intro hd c' hc' hd'
    have := hmax c' hc' hd'
    subst hd
    rw [awayDist, awayDist] at this
    linarith
  · rw [spawn_eq_of_loaded pz d o cars hload, hev]
    by_cases hav : (availableLanes pz d (cars.eraseIdx j)).isEmpty
    · rw [if_pos hav]
      exact Or.inl rfl
    rw [if_neg hav]
    by_cases hch : o.chosenLoaded = false
    · rw [if_pos hch]
      exact Or.inl rfl
    · rw [if_neg hch]
      exact Or.inr ⟨_, rfl, rfl⟩
  · intro hav hch
    rw [spawn_eq_of_loaded pz d o cars hload, hev, hav]
    simp only [Bool.false_eq_true, if_false, hch]
    rw [if_neg (by simp), carsInDir_append_one]
    rw [if_pos rfl]
    exact hcount

/-- A direction group of 30 oncoming cars, all parked on lane 0 at the spawn
point: used as the concrete scenario for claims C5 and C9. -/
def capCarsOneLane : List Car :=
  List.replicate 30 { lane := 0, z := -400, speed := 6/5, dir := Dir.incoming }

/-- Thirty oncoming cars covering both oncoming lanes at the spawn point. -/
def capCarsBothLanes : List Car :=
  List.replicate 15 { lane := 0, z := -400, speed := 6/5, dir := Dir.incoming } ++
  List.replicate 15 { lane := 1, z := -400, speed := 6/5, dir := Dir.incoming }

set_option maxRecDepth 8000 in
unseal Rat.add Rat.sub Rat.mul Rat.inv Rat.ofScientific in
/-- **C5** (corrected): counterexample to the claim as stated.  Thirty
oncoming cars at the cap with lane 1 free at the spawn point: the attempt
(models dictionary non-empty, but the randomly chosen model not yet loaded)
does find a free lane — the safe-lane check leaves lane 1 available — yet
the population ends at 29, not at the cap. -/
theorem spawn_free_lane_population_drops :
    carsInDir Dir.incoming capCarsOneLane = maxCarsPerDirection ∧
    (availableLanes 0 Dir.incoming
      (spawnTrafficCar 0 Dir.incoming ⟨true, 0, false⟩ capCarsOneLane)).isEmpty = false ∧
    carsInDir Dir.incoming
      (spawnTrafficCar 0 Dir.incoming ⟨true, 0, false⟩ capCarsOneLane) = 29 := by
  refine ⟨?_, ?_, ?_⟩ <;> decide

/-- Witness for `spawn_at_cap_evicts_farthest` at the concrete scenario. -/
theorem spawn_at_cap_evicts_farthest_witness :
    carsInDir Dir.incoming capCarsOneLane = maxCarsPerDirection ∧
    ((⟨true, 0, true⟩ : SpawnOracle).anyLoaded = true) ∧
    (∃ j c, capCarsOneLane[j]? = some c ∧ c.dir = Dir.incoming ∧
      (∀ c' ∈ capCarsOneLane, c'.dir = Dir.incoming →
        awayDist 0 Dir.incoming c' ≤ awayDist 0 Dir.incoming c) ∧
      (Dir.incoming = Dir.incoming →
        ∀ c' ∈ capCarsOneLane, c'.dir = Dir.incoming → c.z ≤ c'.z) ∧
      (Dir.incoming = Dir.outgoing →
        ∀ c' ∈ capCarsOneLane, c'.dir = Dir.incoming → c'.z ≤ c.z) ∧
      (spawnTrafficCar 0 Dir.incoming ⟨true, 0, true⟩ capCarsOneLane =
          capCarsOneLane.eraseIdx j ∨
        ∃ newCar : Car, newCar.dir = Dir.incoming ∧
          spawnTrafficCar 0 Dir.incoming ⟨true, 0, true⟩ capCarsOneLane =
            capCarsOneLane.eraseIdx j ++ [newCar]) ∧
      ((availableLanes 0 Dir.incoming (capCarsOneLane.eraseIdx j)).isEmpty = false →
        (⟨true, 0, true⟩ : SpawnOracle).chosenLoaded = true →
        carsInDir Dir.incoming
          (spawnTrafficCar 0 Dir.incoming ⟨true, 0, true⟩ capCarsOneLane) =
          maxCarsPerDirection)) :=
  ⟨by decide, rfl,
    spawn_at_cap_evicts_farthest 0 Dir.incoming ⟨true, 0, true⟩ capCarsOneLane
      (by decide) rfl⟩

/-- **C9** (confirmed).  When a direction at its cap fires a spawn attempt
(with the models dictionary non-empty), the farthest-away same-direction
agent is evicted before the safe-lane check; if every candidate lane is then
blocked, or the chosen vehicle model is not loaded, the attempt ends with the
population reduced to 29 and no new agent inserted. -/
theorem spawn_at_cap_failed_attempt (pz : ℚ) (d : Dir) (o : SpawnOracle)
    (cars : List Car) (hcap : carsInDir d cars = maxCarsPerDirection)
    (hload : o.anyLoaded = true) :
    ∃ j c, cars[j]? = some c ∧ c.dir = d ∧
      (∀ c' ∈ cars, c'.dir = d → awayDist pz d c' ≤ awayDist pz d c) ∧
      evictIfAtCap pz d cars = cars.eraseIdx j ∧
      (((availableLanes pz d (cars.eraseIdx j)).isEmpty = true ∨
          o.chosenLoaded = false) →
        spawnTrafficCar pz d o cars = cars.eraseIdx j ∧
        carsInDir d (spawnTrafficCar pz d o cars) + 1 = maxCarsPerDirection) := by
  obtain ⟨j, c, hjc, hcd, hmax, hev, hcount⟩ := evict_at_cap pz d cars hcap
  refine ⟨j, c, hjc, hcd, hmax, hev, fun hfail => ?_⟩
  have hres : spawnTrafficCar pz d o cars = cars.eraseIdx j := by
    rw [spawn_eq_of_loaded pz d o cars hload, hev]
    rcases hfail with hav | hch
    · rw [if_pos hav]
    · by_cases hav : (availableLanes pz d (cars.eraseIdx j)).isEmpty
      · rw [if_pos hav]
      · rw [if_neg hav, if_pos hch]
  rw [hres]
  exact ⟨rfl, hcount⟩

set_option maxRecDepth 8000 in
unseal Rat.add Rat.sub Rat.mul Rat.inv Rat.ofScientific in
/-- Witness for `spawn_at_cap_failed_attempt`: thirty oncoming cars covering
both oncoming lanes at the spawn point, so after the eviction every candidate
lane is still blocked. -/
theorem spawn_at_cap_failed_attempt_witness :
    carsInDir Dir.incoming capCarsBothLanes = maxCarsPerDirection ∧
    (∃ j c, capCarsBothLanes[j]? = some c ∧ c.dir = Dir.incoming ∧
      (∀ c' ∈ capCarsBothLanes, c'.dir = Dir.incoming →
        awayDist 0 Dir.incoming c' ≤ awayDist 0 Dir.incoming c) ∧
      evictIfAtCap 0 Dir.incoming capCarsBothLanes = capCarsBothLanes.eraseIdx j ∧
      (((availableLanes 0 Dir.incoming (capCarsBothLanes.eraseIdx j)).isEmpty = true ∨
          (⟨true, 0, true⟩ : SpawnOracle).chosenLoaded = false) →
        spawnTrafficCar 0 Dir.incoming ⟨true, 0, true⟩ capCarsBothLanes =
          capCarsBothLanes.eraseIdx j ∧
        carsInDir Dir.incoming
          (spawnTrafficCar 0 Dir.incoming ⟨true, 0, true⟩ capCarsBothLanes) + 1 =
          maxCarsPerDirection)) :=
  ⟨by decide,
    spawn_at_cap_failed_attempt 0 Dir.incoming ⟨true, 0, true⟩ capCarsBothLanes
      (by decide) rfl⟩

/-- **C6** (confirmed).  After a cleanup pass at reference position `pz`, no
oncoming agent further than `despawnDistance` past the player (`z` above
`pz + 500`) survives, and no same-direction agent more than `despawnDistance`
behind (`z` above `pz + 500`) or more than `2·despawnDistance` ahead (`z`
below `pz − 1000`) survives. -/
theorem cleanup_despawn_correct (pz : ℚ) (cars : List Car) :
    ∀ c ∈ cleanupTrafficCars pz cars,
      (c.dir = Dir.incoming → c.z ≤ pz + incomingConfig.despawnDistance) ∧
      (c.dir = Dir.outgoing → c.z ≤ pz + outgoingConfig.despawnDistance ∧
        pz - outgoingConfig.despawnDistance * 2 ≤ c.z) := by
  intro c hc
  have hkeep : shouldDespawn pz c = false := by
    have := (List.mem_filter.1 hc).2
    rwa [Bool.not_eq_true'] at this
  constructor <;> intro hd
  · simp only [shouldDespawn, hd, dirConfig, decide_eq_false_iff_not, not_lt] at hkeep
    exact hkeep
  · simp only [shouldDespawn, hd, dirConfig, Bool.or_eq_false_iff,
      decide_eq_false_iff_not, not_lt] at hkeep
    exact hkeep

unseal Rat.add Rat.sub Rat.mul Rat.inv Rat.ofScientific in
/-- Witness for `cleanup_despawn_correct`: a surviving oncoming car within
the despawn window. -/
theorem cleanup_despawn_correct_witness :
    (Car.mk 0 100 (6/5) Dir.incoming) ∈
      cleanupTrafficCars 0 [Car.mk 0 100 (6/5) Dir.incoming] ∧
    ((Car.mk 0 100 (6/5) Dir.incoming).dir = Dir.incoming →
      (Car.mk 0 100 (6/5) Dir.incoming).z ≤ 0 + incomingConfig.despawnDistance) ∧
    ((Car.mk 0 100 (6/5) Dir.incoming).dir = Dir.outgoing →
      (Car.mk 0 100 (6/5) Dir.incoming).z ≤ 0 + outgoingConfig.despawnDistance ∧
      0 - outgoingConfig.despawnDistance * 2 ≤ (Car.mk 0 100 (6/5) Dir.incoming).z) :=
  ⟨by decide,
    cleanup_despawn_correct 0 [Car.mk 0 100 (6/5) Dir.incoming]
      (Car.mk 0 100 (6/5) Dir.incoming) (by decide)⟩

end Traffic

namespace Road

/-- `getLanePosition(laneIndex)` (roadManager.js lines 199-215) with the
constructor values `roadWidth = 1`, `scaleFactor.x = 20`,
`laneAreaPercentage = 0.8`: maps a lane index to its world `x` offset. -/
def getLanePosition (laneIndex : ℕ) : ℚ :=
  let scaledRoadWidth : ℚ := 1 * 20
  let usableRoadWidth := scaledRoadWidth * (8/10)
  let scaledLaneWidth := usableRoadWidth / 4
  let sideMargin := (scaledRoadWidth - usableRoadWidth) / 2
  let laneStartX := -scaledRoadWidth / 2 + sideMargin
  laneStartX + scaledLaneWidth * ((laneIndex : ℚ) + 1/2)

end Road

namespace Player

/-- The two irrational inputs of the controller, `Math.PI` (the float
`forwardDirection`) and `Math.sin`, abstracted as given rational-valued
oracles: no claim below depends on their actual values. -/
structure TrigOracle where
  pi : ℚ
  sin : ℚ → ℚ

/-- `laneChangeSpeed = 0.2` (playerController.js line 12). -/
def laneChangeSpeed : ℚ := 1/5

/-- `defaultSpeed = 400` (line 17). -/
def defaultSpeed : ℚ := 400

/-- `minSpeed = 200` (line 19). -/
def minSpeed : ℚ := 200

/-- `maxSpeed = 800` (line 20). -/
def maxSpeed : ℚ := 800

/-- `speedDelta = 50` (line 21). -/
def speedDelta : ℚ := 50

/-- `speedFactor = 0.05` (line 22). -/
def speedFactor : ℚ := 1/20

/-- The player locomotion state: lane fields, speed, held input signals, and
the car transform fields the update writes (`position.x`, `position.z`,
`rotation.y`, `rotation.z`).  The renderable handle, trail effect and
`position.y` (constant `carHeight`) are omitted. -/
structure State where
  currentLane : ℕ
  targetLane : ℕ
  movingLane : Bool
  changeLanePhase : ℚ
  velocity : ℚ
  increaseSpeed : Bool
  decreaseSpeed : Bool
  x : ℚ
  z : ℚ
  rotY : ℚ
  rotZ : ℚ

/-- The state after the constructor (lines 10-27), model load (line 67,
`rotation.y = Math.PI`) and `positionCar()` (lines 121-134): note
`currentLane = 2` but `targetLane = 1` with `movingLane = false`. -/
def initialState (trig : TrigOracle) : State :=
  { currentLane := 2, targetLane := 1, movingLane := false, changeLanePhase := 0,
    velocity := defaultSpeed, increaseSpeed := false, decreaseSpeed := false,
    x := Road.getLanePosition 2, z := 0, rotY := trig.pi, rotZ := 0 }

/-- `changeToLane(laneIndex)` (lines 113-119). -/
def changeToLane (laneIndex : ℕ) (s : State) : State :=
  if laneIndex = s.currentLane then s
  else { s with targetLane := laneIndex, movingLane := true, changeLanePhase := 0 }

/-- A discrete lane-change key. -/
inductive LaneKey where
  | left
  | right

/-- The `keydown` handling for `ArrowLeft`/`ArrowRight` (lines 82-91):
ignored while a lane change is in progress, otherwise a clamped
`changeToLane` request (`Math.max(0, l-1)` is natural subtraction here). -/
def handleLaneKey (k : LaneKey) (s : State) : State :=
  if s.movingLane then s
  else
    match k with
    | .left => changeToLane (s.currentLane - 1) s
    | .right => changeToLane (min 3 (s.currentLane + 1)) s

/-- `updateVelocity(deltaTime)` (lines 152-159). -/
def updateVelocity (s : State) : State :=
  if s.increaseSpeed then { s with velocity := min (s.velocity + speedDelta) maxSpeed }
  else if s.decreaseSpeed then { s with velocity := max (s.velocity - speedDelta) minSpeed }
  else s

/-- `updateForwardMovement(deltaTime)` (lines 161-170). -/
def updateForwardMovement (dt : ℚ) (s : State) : State :=
  { s with z := s.z - s.velocity * speedFactor * dt }

/-- `updateLanePosition(deltaTime)` (lines 172-231).  The phase increment
divides by `|targetX - getLanePosition(currentLane)|`; in the reachable
mid-change states this is the nonzero lane span (in JavaScript a zero span
would give `Infinity`, clamped to phase `1`; rational division by zero gives
`0` — no claim depends on that unreachable corner).  `THREE.MathUtils.lerp`
is `a + (b - a) * t`. -/
def updateLanePosition (trig : TrigOracle) (dt : ℚ) (s : State) : State :=
  if s.movingLane then
    let targetX := Road.getLanePosition s.targetLane
    let currentX := s.x
    let direction : ℚ := if currentX < targetX then 1 else -1
    let moveAmount := laneChangeSpeed * dt * 60
    let phase1 := s.changeLanePhase +
      moveAmount / |targetX - Road.getLanePosition s.currentLane|
    let phase2 := min phase1 1
    if |targetX - currentX| ≤ moveAmount then
      { s with x := targetX, currentLane := s.targetLane, movingLane := false,
               changeLanePhase := 0, rotY := trig.pi, rotZ := 0 }
    else
      let steeringFactor : ℚ :=
        if phase2 < 3/10 then phase2 / (3/10)
        else if phase2 < 7/10 then 1 - ((phase2 - 3/10) / (4/10))
        else -(3/10) * trig.sin (((phase2 - 7/10) / (3/10)) * trig.pi)
      { s with x := currentX + direction * moveAmount,
               changeLanePhase := phase2,
               rotY := trig.pi - direction * (trig.pi / 8) * steeringFactor,
               rotZ := direction * (1/10) * trig.sin (phase2 * trig.pi) }
  else
    if s.rotZ ≠ 0 ∨ s.rotY ≠ trig.pi then
      { s with rotZ := s.rotZ + (0 - s.rotZ) * (1/10),
               rotY := s.rotY + (trig.pi - s.rotY) * (1/10) }
    else s

/-- `update(deltaTime)` (lines 136-150), once the car model is loaded; the
trail update is cosmetic and omitted. -/
def update (trig : TrigOracle) (dt : ℚ) (s : State) : State :=
  updateLanePosition trig dt (updateForwardMovement dt (updateVelocity s))

/-- `reset()` (lines 251-266): lanes back to 1, not changing lane, default
speed, inputs released, and `positionCar()` re-places the car at lane 1,
`z = 0`.  Note that `changeLanePhase` and the rotations are **not** reset. -/
def reset (s : State) : State :=
  { s with currentLane := 1, targetLane := 1, movingLane := false,
           velocity := defaultSpeed, increaseSpeed := false, decreaseSpeed := false,
           x := Road.getLanePosition 1, z := 0 }

/-- The spec's claimed state-machine invariant. -/
def LaneInv (s : State) : Prop :=
  s.movingLane = false → s.currentLane = s.targetLane ∧ s.changeLanePhase = 0

instance (s : State) : Decidable (LaneInv s) := by
  rw [LaneInv]
  infer_instance

/-- A concrete oracle instance used only to evaluate states; the lane fields
never depend on it. -/
def trigStub : TrigOracle := { pi := 0, sin := fun _ => 0 }

end Player

namespace Player

set_option maxRecDepth 2000 in
unseal Rat.add Rat.sub Rat.mul Rat.inv Rat.ofScientific in
/-- **C3** (corrected): counterexample.  The claimed invariant fails in the
initial state after construction — `isChangingLane = false` but
`currentLane = 2 ≠ 1 = targetLane` — and also after a `reset()` issued in
the middle of a lane change reached from the initial state (request left,
then one 1/60 s tick): there `isChangingLane = false` but
`laneChangePhase = 1/20 ≠ 0`, since `reset()` does not clear the phase. -/
theorem lane_invariant_counterexample :
    ((initialState trigStub).movingLane = false ∧
      ¬ (initialState trigStub).currentLane = (initialState trigStub).targetLane) ∧
    ((reset (update trigStub (1/60) (handleLaneKey .left (initialState trigStub)))).movingLane
        = false ∧
      ¬ (reset (update trigStub (1/60)
          (handleLaneKey .left (initialState trigStub)))).changeLanePhase = 0) := by
  refine ⟨⟨rfl, by decide⟩, ⟨?_, ?_⟩⟩ <;> decide

theorem laneInv_updateVelocity (s : State) (h : LaneInv s) :
    LaneInv (updateVelocity s) := by
  rw [updateVelocity]
  by_cases hi : s.increaseSpeed
  · simpa [LaneInv, hi] using h
  · by_cases hd : s.decreaseSpeed <;> simpa [LaneInv, hi, hd] using h

theorem laneInv_updateForward (dt : ℚ) (s : State) (h : LaneInv s) :
    LaneInv (updateForwardMovement dt s) := by
  simpa [LaneInv, updateForwardMovement] using h

theorem laneInv_updateLanePosition (trig : TrigOracle) (dt : ℚ) (s : State)
    (h : LaneInv s) : LaneInv (updateLanePosition trig dt s) := by
  rw [updateLanePosition]
  by_cases hm : s.movingLane
  · rw [if_pos hm]
    by_cases harr : |Road.getLanePosition s.targetLane - s.x| ≤ laneChangeSpeed * dt * 60
    · rw [if_pos harr]
      intro _
      exact ⟨rfl, rfl⟩
    · rw [if_neg harr]
      intro hfalse
      have hh : s.movingLane = false := hfalse
      rw [hm] at hh
      cases hh
  · rw [if_neg hm]
    rw [Bool.not_eq_true] at hm
    by_cases hr : s.rotZ ≠ 0 ∨ s.rotY ≠ trig.pi
    · rw [if_pos hr]
      intro _
      exact h hm
    · rw [if_neg hr]
      exact h

/-- **C3** (corrected): the amended theorem.  The invariant
`isChangingLane = false → currentLane = targetLane ∧ laneChangePhase = 0` is
preserved by every update tick and every lane-change key, and it holds after
`reset()` whenever the reset is issued while no lane change is in progress;
it does **not** hold in the constructor's initial state, and a reset issued
mid-lane-change can leave a stale nonzero `laneChangePhase`
(see `lane_invariant_counterexample`). -/
theorem lane_invariant_preserved (trig : TrigOracle) (dt : ℚ) (k : LaneKey)
    (s : State) (h : LaneInv s) :
    LaneInv (update trig dt s) ∧
    LaneInv (handleLaneKey k s) ∧
    (s.movingLane = false → LaneInv (reset s)) := by
  refine ⟨?_, ?_, ?_⟩
  · exact laneInv_updateLanePosition trig dt _
      (laneInv_updateForward dt _ (laneInv_updateVelocity s h))
  · have hlane : ∀ m : ℕ, LaneInv (changeToLane m s) := by
      intro m
      rw [changeToLane]
      by_cases he : m = s.currentLane
      · rw [if_pos he]
        exact h
      · rw [if_neg he]
        intro hfalse
        cases hfalse
    cases k with
    | left =>
      show LaneInv (if s.movingLane then s else changeToLane (s.currentLane - 1) s)
      by_cases hm : s.movingLane
      · rw [if_pos hm]
        exact h
      · rw [if_neg hm]
        exact hlane _
    | right =>
      show LaneInv (if s.movingLane then s else changeToLane (min 3 (s.currentLane + 1)) s)
      by_cases hm : s.movingLane
      · rw [if_pos hm]
        exact h
      · rw [if_neg hm]
        exact hlane _
  · intro hm _
    exact ⟨rfl, (h hm).2⟩

unseal Rat.add Rat.sub Rat.mul Rat.inv Rat.ofScientific in
/-- Witness for `lane_invariant_preserved` at the post-reset state. -/
theorem lane_invariant_preserved_witness :
    LaneInv (reset (initialState trigStub)) ∧
    (LaneInv (update trigStub 1 (reset (initialState trigStub))) ∧
     LaneInv (handleLaneKey .left (reset (initialState trigStub))) ∧
     ((reset (initialState trigStub)).movingLane = false →
       LaneInv (reset (reset (initialState trigStub))))) :=
  ⟨by decide,
    lane_invariant_preserved trigStub 1 .left (reset (initialState trigStub))
      (by decide)⟩

end Player

namespace Camera

/-- A world-space vector, componentwise rational. -/
structure Vec3 where
  x : ℚ
  y : ℚ
  z : ℚ
  deriving DecidableEq

/-- `THREE.MathUtils.lerp(a, b, t) = a + (b - a) * t`. -/
def lerpQ (a b t : ℚ) : ℚ := a + (b - a) * t

/-- `Vector3.lerp(target, t)`: componentwise `lerpQ`. -/
def lerpV (v w : Vec3) (t : ℚ) : Vec3 :=
  { x := lerpQ v.x w.x t, y := lerpQ v.y w.y t, z := lerpQ v.z w.z t }

/-- One of the two camera presets (cameraController.js lines 19-29). -/
structure Preset where
  height : ℚ
  distance : ℚ
  fov : ℚ

/-- `this.lowSpeedConfig` (lines 19-23). -/
def lowSpeedConfig : Preset := { height := 5, distance := 5, fov := 40 }

/-- `this.highSpeedConfig` (lines 25-29). -/
def highSpeedConfig : Preset := { height := 2, distance := 8, fov := 20 }

/-- `carSpeed > 600 ? 1 : 0` (line 76): the binary blend target. -/
def speedTransitionTarget (carSpeed : ℚ) : ℚ := if 600 < carSpeed then 1 else 0

/-- `easingSpeed = 0.03` (line 80). -/
def easingSpeed : ℚ := 3/100

/-- `positionTransitionSpeed = 0.05` (line 115). -/
def positionTransitionSpeed : ℚ := 1/20

/-- The camera controller's smoothing state plus the applied field of view. -/
structure State where
  currentPosition : Vec3
  targetPosition : Vec3
  currentLookAt : Vec3
  targetLookAt : Vec3
  speedTransitionFactor : ℚ
  fov : ℚ

/-- `updateCamera(playerController, guiManager)` (lines 68-126), given the
player's position and speed: pick the binary blend target, ease the live
blend factor toward it, interpolate the three parameters between the presets
at the eased factor, aim at the player plus offsets (look-at 10 units
ahead, i.e. `z - 10`), and ease position and look-at toward those targets. -/
def updateCamera (carPosition : Vec3) (carSpeed : ℚ) (s : State) : State :=
  let target := speedTransitionTarget carSpeed
  let f := s.speedTransitionFactor + (target - s.speedTransitionFactor) * easingSpeed
  let height := lerpQ lowSpeedConfig.height highSpeedConfig.height f
  let distance := lerpQ lowSpeedConfig.distance highSpeedConfig.distance f
  let fov := lerpQ lowSpeedConfig.fov highSpeedConfig.fov f
  let targetPosition : Vec3 :=
    { x := carPosition.x, y := carPosition.y + height, z := carPosition.z + distance }
  let targetLookAt : Vec3 :=
    { x := carPosition.x, y := carPosition.y, z := carPosition.z - 10 }
  { currentPosition := lerpV s.currentPosition targetPosition positionTransitionSpeed,
    targetPosition := targetPosition,
    currentLookAt := lerpV s.currentLookAt targetLookAt positionTransitionSpeed,
    targetLookAt := targetLookAt,
    speedTransitionFactor := f,
    fov := fov }

/-- **C7** (confirmed).  On every camera update the blend target is exactly
`0` or `1`, chosen by comparing the speed with the fixed threshold `600`; the
live blend factor moves toward the target by the fixed exponential easing
`f' - t = (1 - 0.03)(f - t)` (equivalently it steps by `0.03` of the
remaining gap, never jumping), staying in `[0, 1]` whenever it starts there;
and the camera height, distance and field of view are the linear
interpolations between the `lowSpeed` and `highSpeed` presets at the live
(eased) blend factor. -/
theorem camera_update_blend (carPosition : Vec3) (carSpeed : ℚ) (s : State)
    (h0 : 0 ≤ s.speedTransitionFactor) (h1 : s.speedTransitionFactor ≤ 1) :
    (speedTransitionTarget carSpeed = 0 ∨ speedTransitionTarget carSpeed = 1) ∧
    (updateCamera carPosition carSpeed s).speedTransitionFactor -
        speedTransitionTarget carSpeed =
      (1 - easingSpeed) * (s.speedTransitionFactor - speedTransitionTarget carSpeed) ∧
    (updateCamera carPosition carSpeed s).speedTransitionFactor -
        s.speedTransitionFactor =
      easingSpeed * (speedTransitionTarget carSpeed - s.speedTransitionFactor) ∧
    0 ≤ (updateCamera carPosition carSpeed s).speedTransitionFactor ∧
    (updateCamera carPosition carSpeed s).speedTransitionFactor ≤ 1 ∧
    (updateCamera carPosition carSpeed s).fov =
      lerpQ lowSpeedConfig.fov highSpeedConfig.fov
        (updateCamera carPosition carSpeed s).speedTransitionFactor ∧
    (updateCamera carPosition carSpeed s).targetPosition.y - carPosition.y =
      lerpQ lowSpeedConfig.height highSpeedConfig.height
        (updateCamera carPosition carSpeed s).speedTransitionFactor ∧
    (updateCamera carPosition carSpeed s).targetPosition.z - carPosition.z =
      lerpQ lowSpeedConfig.distance highSpeedConfig.distance
        (updateCamera carPosition carSpeed s).speedTransitionFactor := by
  have htar : speedTransitionTarget carSpeed = 0 ∨ speedTransitionTarget carSpeed = 1 := by
    rw [speedTransitionTarget]
    by_cases hs : (600 : ℚ) < carSpeed
    · exact Or.inr (if_pos hs)
    · exact Or.inl (if_neg hs)
  have hfac : (updateCamera carPosition carSpeed s).speedTransitionFactor =
      s.speedTransitionFactor +
        (speedTransitionTarget carSpeed - s.speedTransitionFactor) * easingSpeed := rfl
  refine ⟨htar, ?_, ?_, ?_, ?_, ?_, ?_, ?_⟩
  · rw [hfac]; ring
  · rw [hfac]; ring
  · rw [hfac, easingSpeed]
    rcases htar with ht | ht <;> rw [ht] <;> nlinarith
  · rw [hfac, easingSpeed]
    rcases htar with ht | ht <;> rw [ht] <;> nlinarith
  · rfl
  · show (updateCamera carPosition carSpeed s).targetPosition.y - carPosition.y = _
    rw [hfac]
    show carPosition.y + _ - carPosition.y = _
    ring
  · show (updateCamera carPosition carSpeed s).targetPosition.z - carPosition.z = _
    rw [hfac]
    show carPosition.z + _ - carPosition.z = _
    ring

/-- A concrete camera state used by the witness below. -/
def camState0 : State :=
  { currentPosition := ⟨0, 0, 0⟩, targetPosition := ⟨0, 0, 0⟩,
    currentLookAt := ⟨0, 0, 0⟩, targetLookAt := ⟨0, 0, 0⟩,
    speedTransitionFactor := 1/2, fov := 40 }

unseal Rat.add Rat.sub Rat.mul Rat.inv Rat.ofScientific in
/-- Witness for `camera_update_blend` at a concrete state and speed. -/
theorem camera_update_blend_witness :
    ((0 : ℚ) ≤ 1/2 ∧ (1/2 : ℚ) ≤ 1) ∧
    ((speedTransitionTarget 700 = 0 ∨ speedTransitionTarget 700 = 1) ∧
     (updateCamera ⟨0, 0, 0⟩ 700 camState0).speedTransitionFactor -
         speedTransitionTarget 700 =
       (1 - easingSpeed) * (camState0.speedTransitionFactor - speedTransitionTarget 700) ∧
     (updateCamera ⟨0, 0, 0⟩ 700 camState0).speedTransitionFactor -
         camState0.speedTransitionFactor =
       easingSpeed * (speedTransitionTarget 700 - camState0.speedTransitionFactor) ∧
     0 ≤ (updateCamera ⟨0, 0, 0⟩ 700 camState0).speedTransitionFactor ∧
     (updateCamera ⟨0, 0, 0⟩ 700 camState0).speedTransitionFactor ≤ 1 ∧
     (updateCamera ⟨0, 0, 0⟩ 700 camState0).fov =
       lerpQ lowSpeedConfig.fov highSpeedConfig.fov
         (updateCamera ⟨0, 0, 0⟩ 700 camState0).speedTransitionFactor ∧
     (updateCamera ⟨0, 0, 0⟩ 700 camState0).targetPosition.y - (0 : ℚ) =
       lerpQ lowSpeedConfig.height highSpeedConfig.height
         (updateCamera ⟨0, 0, 0⟩ 700 camState0).speedTransitionFactor ∧
     (updateCamera ⟨0, 0, 0⟩ 700 camState0).targetPosition.z - (0 : ℚ) =
       lerpQ lowSpeedConfig.distance highSpeedConfig.distance
         (updateCamera ⟨0, 0, 0⟩ 700 camState0).speedTransitionFactor) :=
  ⟨⟨by decide, by decide⟩,
    camera_update_blend ⟨0, 0, 0⟩ 700 camState0 (by decide) (by decide)⟩

end Camera
